import Mathlib

/-!
# Call-audio transport of the Chime plugin: framing, acknowledgements, reassembly

A shallow embedding of `chime-call-audio.c`.  Bytes, lengths, sequence numbers
and the message ids of decoded messages are natural numbers; the id of a
stored message and the replay cutoff are signed 32-bit values (`gint32`); the
session structure is passed explicitly; the packets handed to the transport and the calls made to the
participant collaborator are appended to a log kept in the session.

The declarations of `chime-call-audio.h` and of the protobuf-c headers are not
part of the sources, so the layout they fix is described next to each
definition that relies on it.
-/

namespace Chime

/-! ## Wire format and decoded messages -/

/-- The values of `enum xrp_pkt_type`.  The enumeration is declared in
`chime-call-audio.h`; the source only names its members, so they are taken as
parameters. -/
structure XrpTags where
  XRP_RT_MESSAGE : Nat
  XRP_AUTH_MESSAGE : Nat
  XRP_DATA_MESSAGE : Nat
  XRP_STREAM_MESSAGE : Nat
  deriving DecidableEq

/-- Case labels of one C `switch` are pairwise different, and a tag that is
compared with a 16-bit field has to fit in it to be matched at all. -/
def XrpTags.wellFormed (t : XrpTags) : Prop :=
  t.XRP_RT_MESSAGE ≠ t.XRP_AUTH_MESSAGE ∧ t.XRP_RT_MESSAGE ≠ t.XRP_DATA_MESSAGE ∧
  t.XRP_AUTH_MESSAGE ≠ t.XRP_DATA_MESSAGE ∧
  t.XRP_RT_MESSAGE < 65536 ∧ t.XRP_AUTH_MESSAGE < 65536 ∧ t.XRP_DATA_MESSAGE < 65536

instance (t : XrpTags) : Decidable t.wellFormed := by
  unfold XrpTags.wellFormed; infer_instance

/-- The value of `sizeof(struct xrp_header)`: two 16-bit fields, `type` then `len`
(`len -= 4` in `audio_receive_packet`). -/
def xrp_header_size : Nat := 4

/-- The value `ntohs` gives for the 16-bit field stored at byte offset `off` of `p`: the first
byte is the high one. -/
def ntohs_at (p : List Nat) (off : Nat) : Nat :=
  (p.getD off 0 % 256) * 256 + p.getD (off + 1) 0 % 256

/-- The expression `ntohs(hdr->type)`. -/
def hdr_type (p : List Nat) : Nat := ntohs_at p 0

/-- The expression `ntohs(hdr->len)`. -/
def hdr_len (p : List Nat) : Nat := ntohs_at p 2

/-- The fields of the generated `AuthMessage` that the source reads. -/
structure AuthMessage where
  has_authorized : Bool
  authorized : Bool
  deriving DecidableEq

/-- The fields of the generated `AudioMessage` that the source reads or
writes.  `audio` stands for the `audio` bytes field (`audio.len`, `audio.data`). -/
structure AudioMessage where
  has_seq : Bool
  seq : Nat
  has_sample_time : Bool
  sample_time : Nat
  has_server_time : Bool
  server_time : Int
  has_echo_time : Bool
  echo_time : Int
  has_total_frames_lost : Bool
  total_frames_lost : Nat
  has_ntp_time : Bool
  ntp_time : Int
  has_audio : Bool
  audio : List Nat
  deriving DecidableEq

/-- What `audio_message__init` leaves: every field absent or zero. -/
def audio_message__init : AudioMessage :=
  { has_seq := false, seq := 0, has_sample_time := false, sample_time := 0,
    has_server_time := false, server_time := 0, has_echo_time := false, echo_time := 0,
    has_total_frames_lost := false, total_frames_lost := 0,
    has_ntp_time := false, ntp_time := 0, has_audio := false, audio := [] }

/-- One element of `msg->profiles` of an `RTMessage`. -/
structure ProfileMessage where
  has_stream_id : Bool
  stream_id : Nat
  has_muted : Bool
  muted : Bool
  has_volume : Bool
  volume : Int
  has_signal_strength : Bool
  signal_strength : Int
  deriving DecidableEq

/-- The generated `RTMessage`: an optional audio part (`msg->audio` may be
NULL) and the profile entries. -/
structure RTMessage where
  audio : Option AudioMessage
  profiles : List ProfileMessage
  deriving DecidableEq

/-- One element of `msg->streams` of a `StreamMessage`; `profile_id` may be
NULL. -/
structure StreamEntry where
  profile_id : Option String
  has_stream_id : Bool
  stream_id : Nat
  deriving DecidableEq

/-- The generated `StreamMessage`. -/
structure StreamMessage where
  streams : List StreamEntry
  deriving DecidableEq

/-- The fields of the generated `DataMessage` that the source reads or writes.
`data` stands for the bytes field (`data.len`, `data.data`). -/
structure DataMessage where
  has_seq : Bool
  seq : Nat
  has_ack : Bool
  ack : Nat
  has_ack_mask : Bool
  ack_mask : Nat
  has_msg_id : Bool
  msg_id : Nat
  has_msg_len : Bool
  msg_len : Nat
  offset : Nat
  data : List Nat
  deriving DecidableEq

/-- What `data_message__init` leaves: every field absent or zero. -/
def data_message__init : DataMessage :=
  { has_seq := false, seq := 0, has_ack := false, ack := 0, has_ack_mask := false,
    ack_mask := 0, has_msg_id := false, msg_id := 0, has_msg_len := false, msg_len := 0,
    offset := 0, data := [] }

/-! ## Collaborators -/

/-- The collaborators the file calls but does not define: the four protobuf-c
unpackers (NULL on undecodable input), `chime_call_participant_audio_stats`
(its boolean result), and whether `chime_call_get_connection` yields a
connection.  The `msg_id` field of the generated `DataMessage` is 32 bits wide:
`msg_id_32` says that a decoded message holds an id below 2^32. -/
structure Env where
  tags : XrpTags
  rtmessage__unpack : List Nat → Option RTMessage
  auth_message__unpack : List Nat → Option AuthMessage
  data_message__unpack : List Nat → Option DataMessage
  stream_message__unpack : List Nat → Option StreamMessage
  chime_call_participant_audio_stats : String → Int → Int → Bool
  has_connection : Bool
  msg_id_32 : ∀ pkt msg, data_message__unpack pkt = some msg → msg.msg_id < 2 ^ 32

/-- What the session hands to its collaborators, in the order it does so. -/
inductive Output where
  | sent_rt (m : AudioMessage)
  | sent_data (m : DataMessage)
  | audio_stats (profile_id : String) (vol : Int) (signal_strength : Int)
  | emit_participants
  deriving DecidableEq

/-! ## Session state -/

/-- The members of `ChimeAudioState` that the source names. -/
inductive ChimeAudioState where
  | AUDIO_STATE_CONNECTING
  | AUDIO_STATE_AUDIO
  | AUDIO_STATE_MUTED
  | AUDIO_STATE_HANGUP
  deriving DecidableEq

/-- One received byte range of a pending message (`struct message_frag`; the
`next` pointer is the tail of the list that holds it). -/
structure message_frag where
  start : Nat
  end_ : Nat
  deriving DecidableEq

/-- One message under reassembly (`struct message_buf`).  `msg_id` is a
`gint32`: it holds the message id as `find_msgbuf` received it, which is
negative for an id of 2^31 or more.  `len` is a `gint32` as well; it is never
negative in an entry of the table, because `find_msgbuf` does not return from
allocating a buffer of negative length, and it is the length of `buf`. -/
structure message_buf where
  msg_id : Int
  len : Nat
  buf : List Nat
  frags : List message_frag
  deriving DecidableEq

/-- The fields of `ChimeCallAudio` that the source uses.  `data_next_seq` is a
32-bit and `data_ack_mask` a 64-bit unsigned counter.  `source_ids` is the
number of event sources GLib has handed out (ids start at 1), `live_sources`
the ids of the sources that are registered with GLib at the moment, and `out`
is the log of what was handed to the collaborators. -/
structure ChimeCallAudio where
  state : ChimeAudioState
  muted : Bool
  send_rt_source : Nat
  data_ack_source : Nat
  data_next_seq : Nat
  data_ack_mask : Nat
  data_next_logical_msg : Int
  data_messages : List message_buf
  last_server_time_offset : Int
  echo_server_time : Bool
  audio_msg : AudioMessage
  profiles : List (Nat × String)
  source_ids : Nat
  live_sources : List Nat
  out : List Output
  deriving DecidableEq

/-- The call `chime_call_transport_send_packet`: the packet is serialised when the call
is made, so the log keeps the message as it is at that moment. -/
def chime_call_transport_send_packet (audio : ChimeCallAudio) (p : Output) : ChimeCallAudio :=
  { audio with out := audio.out ++ [p] }

/-- Modelled from the spec: `chime_call_audio_set_state` is defined outside
this file; it records the new state of the session. -/
def chime_call_audio_set_state (audio : ChimeCallAudio) (s : ChimeAudioState) : ChimeCallAudio :=
  { audio with state := s }

/-- The calls `g_idle_add` and `g_timeout_add`: GLib registers the source and returns a
fresh id, never 0. -/
def g_source_add (audio : ChimeCallAudio) : Nat × ChimeCallAudio :=
  (audio.source_ids + 1,
    { audio with source_ids := audio.source_ids + 1,
                 live_sources := audio.live_sources ++ [audio.source_ids + 1] })

/-- The call `g_source_remove`: GLib destroys the source of that id; the
session structure itself is not written. -/
def g_source_remove (audio : ChimeCallAudio) (id : Nat) : ChimeCallAudio :=
  { audio with live_sources := audio.live_sources.erase id }

/-- The call `g_hash_table_lookup` on the stream-id map. -/
def profiles_lookup : List (Nat × String) → Nat → Option String
  | [], _ => none
  | (k, v) :: rest, key => if k = key then some v else profiles_lookup rest key

/-- The call `g_hash_table_insert` on the stream-id map: the value of an existing key
is replaced. -/
def profiles_insert : List (Nat × String) → Nat → String → List (Nat × String)
  | [], key, v => [(key, v)]
  | (k, w) :: rest, key, v =>
    if k = key then (k, v) :: rest else (k, w) :: profiles_insert rest key v

/-! ## RealTime channel -/

/-- The body of the loop over `msg->profiles` in `audio_receive_rt_msg`, for
one entry: the session afterwards and the updated `send_sig`. -/
def rt_profile_step (env : Env) (s : ChimeCallAudio × Bool) (p : ProfileMessage) :
    ChimeCallAudio × Bool :=
  if !p.has_stream_id then s
  else
    match profiles_lookup s.1.profiles p.stream_id with
    | none => s
    | some profile_id =>
      let vol : Option Int :=
        if p.has_muted && p.muted then some (-128)
        else if p.has_volume then some (-p.volume)
        else none
      match vol with
      | none => s
      | some v =>
        let signal_strength : Int := if p.has_signal_strength then p.signal_strength else -1
        let a := { s.1 with out := s.1.out ++ [Output.audio_stats profile_id v signal_strength] }
        (a, if env.chime_call_participant_audio_stats profile_id v signal_strength then true
            else s.2)

/-- Function `audio_receive_rt_msg`, with `now` the value `g_get_monotonic_time`
returns. -/
def audio_receive_rt_msg (env : Env) (now : Int) (audio : ChimeCallAudio) (pkt : List Nat) :
    Bool × ChimeCallAudio :=
  match env.rtmessage__unpack pkt with
  | none => (false, audio)
  | some msg =>
    let audio1 :=
      match msg.audio with
      | none => audio
      | some am =>
        if am.has_server_time then
          { audio with last_server_time_offset := am.server_time - now,
                       echo_server_time := true }
        else audio
    let r := msg.profiles.foldl (rt_profile_step env) (audio1, false)
    let audio2 := if r.2 then { r.1 with out := r.1.out ++ [Output.emit_participants] } else r.1
    (true, audio2)

/-- Function `do_send_rt_packet`, with `now` and `real` the values of
`g_get_monotonic_time` and `g_get_real_time`.  `sample_time` is a 32-bit
unsigned field. -/
def do_send_rt_packet (now real : Int) (audio : ChimeCallAudio) : ChimeCallAudio :=
  let m0 := { audio.audio_msg with seq := (audio.audio_msg.seq + 1) % 65536,
                                   sample_time := (audio.audio_msg.sample_time + 320) % 2 ^ 32 }
  let r : AudioMessage × Bool :=
    if audio.last_server_time_offset ≠ 0 then
      let t := audio.last_server_time_offset + now
      let m1 := if audio.echo_server_time then { m0 with has_echo_time := true, echo_time := t }
                else m0
      ({ m1 with has_server_time := true, server_time := t }, false)
    else ({ m0 with has_echo_time := false }, audio.echo_server_time)
  let m2 := { r.1 with has_total_frames_lost := true, total_frames_lost := 0,
                        has_ntp_time := true, ntp_time := real,
                        has_audio := true, audio := [] }
  chime_call_transport_send_packet { audio with audio_msg := m2, echo_server_time := r.2 }
    (Output.sent_rt m2)

/-- Function `audio_receive_auth_msg` (built without `AUDIO_HACKS`). -/
def audio_receive_auth_msg (env : Env) (now real : Int) (audio : ChimeCallAudio)
    (pkt : List Nat) : Bool × ChimeCallAudio :=
  match env.auth_message__unpack pkt with
  | none => (false, audio)
  | some msg =>
    if msg.has_authorized && msg.authorized then
      let a1 := do_send_rt_packet now real audio
      let a2 :=
        if a1.send_rt_source = 0 then
          let r := g_source_add a1
          { r.2 with send_rt_source := r.1 }
        else a1
      (true, chime_call_audio_set_state a2
        (if a2.muted then ChimeAudioState.AUDIO_STATE_MUTED else ChimeAudioState.AUDIO_STATE_AUDIO))
    else (true, audio)

/-! ## Data channel: acknowledgements -/

/-- Function `do_send_ack`.  `msg.ack` and `data_next_seq` are 32-bit unsigned, so
`data_next_seq - 1` wraps at zero. -/
def do_send_ack (audio : ChimeCallAudio) : ChimeCallAudio :=
  let msg0 := { data_message__init with
                  ack := (audio.data_next_seq + 2 ^ 32 - 1) % 2 ^ 32, has_ack := true }
  if audio.data_ack_mask ≠ 0 then
    chime_call_transport_send_packet { audio with data_ack_mask := 0 }
      (Output.sent_data { msg0 with has_ack_mask := true, ack_mask := audio.data_ack_mask })
  else
    chime_call_transport_send_packet audio (Output.sent_data msg0)

/-- Function `idle_send_ack`, the deferred flush that `g_idle_add` schedules.  It
returns FALSE, so GLib destroys its source after the call. -/
def idle_send_ack (audio : ChimeCallAudio) : ChimeCallAudio :=
  { do_send_ack audio with
    data_ack_source := 0,
    live_sources := (do_send_ack audio).live_sources.erase audio.data_ack_source }

/-- The `while (msg->seq > audio->data_next_seq)` loop of
`audio_receive_data_msg`, on the session and the local `pending`.  Every
iteration that does not leave the loop increments `data_next_seq`, so
`msg->seq - data_next_seq` iterations are enough; the first argument after
`seq` bounds the number of iterations. -/
def ack_walk (seq : Nat) : Nat → ChimeCallAudio × Bool → ChimeCallAudio × Bool
  | 0, s => s
  | fuel + 1, (audio, pending) =>
    if seq > audio.data_next_seq then
      if audio.data_ack_mask &&& 0x8000000000000000 ≠ 0 then
        (do_send_ack audio, false)
      else
        let mask := (audio.data_ack_mask <<< 1) % 2 ^ 64
        let audio1 := { audio with data_next_seq := audio.data_next_seq + 1,
                                   data_ack_mask := if pending then mask ||| 1 else mask }
        ack_walk seq fuel (audio1, false)
    else (audio, pending)

/-- The statement `if (!audio->data_ack_source) audio->data_ack_source =
g_idle_add(idle_send_ack, audio);` of `audio_receive_data_msg`. -/
def schedule_idle_send_ack (audio : ChimeCallAudio) : ChimeCallAudio :=
  if audio.data_ack_source = 0 then
    let g := g_source_add audio
    { g.2 with data_ack_source := g.1 }
  else audio

/-- The acknowledgement part of `audio_receive_data_msg` (from "First process
ACKs" to the `g_idle_add`). -/
def data_msg_acks (audio : ChimeCallAudio) (msg : DataMessage) : ChimeCallAudio :=
  let pending0 : Bool := audio.data_ack_source ≠ 0
  let r : ChimeCallAudio × Bool :=
    if pending0 || audio.data_ack_mask ≠ 0 then
      ack_walk msg.seq (msg.seq - audio.data_next_seq) (audio, pending0)
    else (audio, pending0)
  let mask := (r.1.data_ack_mask <<< 1) % 2 ^ 64
  schedule_idle_send_ack
    { r.1 with data_next_seq := (msg.seq + 1) % 2 ^ 32,
               data_ack_mask := if r.2 then mask ||| 1 else mask }

/-! ## Data channel: reassembly -/

/-- The cascading-merge loop of `insert_frag`,
`while ((*f)->next && nf->start <= (*f)->end)`, on the pair `((*f)->end,
(*f)->next)`.  `nf` is assigned once, before the loop, and never inside it:
every iteration reads the fields of that same node (`nf` with successor
`nf_next`), also after the node has been released.  The first argument bounds
the number of times the condition is evaluated; `none` means the bound was
reached. -/
def absorb_loop (nf : message_frag) (nf_next : List message_frag) :
    Nat → Nat × List message_frag → Option (Nat × List message_frag)
  | 0, _ => none
  | fuel + 1, (e, next) =>
    if next ≠ [] ∧ nf.start ≤ e then absorb_loop nf nf_next fuel (nf.end_, nf_next)
    else some (e, next)

/-- The loop either stops at its first or second test or repeats the same
state for ever (see `absorb_loop_fuel`), so two tests decide. -/
def absorb_fuel : Nat := 2

/-- The list walk of `insert_frag`: the fragment list after `[start, end_)`
has been inserted, `none` when the cascading merge does not terminate. -/
def insert_frag_walk (start end_ : Nat) : List message_frag → Option (List message_frag)
  | [] => some [{ start := start, end_ := end_ }]
  | f :: rest =>
    if end_ < f.start then
      some ({ start := start, end_ := end_ } :: f :: rest)
    else if start ≤ f.end_ then
      let s := if start < f.start then start else f.start
      if end_ > f.end_ then
        match rest with
        | [] => some [{ start := s, end_ := end_ }]
        | nf :: nf_next =>
          (absorb_loop nf nf_next absorb_fuel (end_, nf :: nf_next)).map
            fun r => { start := s, end_ := r.1 } :: r.2
      else some ({ start := s, end_ := f.end_ } :: rest)
    else (insert_frag_walk start end_ rest).map fun l => f :: l

/-- The test at `done:` of `insert_frag`, on the first fragment. -/
def frags_complete (len : Nat) : List message_frag → Bool
  | [] => false
  | f :: _ => f.start == 0 && f.end_ == len

/-- Function `insert_frag`: the returned flag and the message with its new fragment
list; `none` when the call does not return. -/
def insert_frag (m : message_buf) (start end_ : Nat) : Option (Bool × message_buf) :=
  (insert_frag_walk start end_ m.frags).map
    fun l => (frags_complete m.len l, { m with frags := l })

/-- A fresh entry with a zero-filled buffer of `msg_len` bytes and no
fragment. -/
def new_msgbuf (msg_id : Int) (msg_len : Nat) : message_buf :=
  { msg_id := msg_id, len := msg_len, buf := List.replicate msg_len 0, frags := [] }

/-- The value that a `gint32` holds after an `int` computation whose exact
result is `x`, or after the conversion of a wider or unsigned `x`: the value
itself when it fits, and the two's-complement wrap-around otherwise (the C
standard leaves signed overflow undefined; this is what the compiled addition
stores). -/
def gint32 (x : Int) : Int :=
  (x + 2147483648) % 4294967296 - 2147483648

/-- The calls `g_new0` and `g_malloc0(msg_len)` in `find_msgbuf`, for the
`gint32` arguments `msg_id` and `msg_len`.  A negative `msg_len` is converted
to a `gsize` near 2^64, which no allocation satisfies, and `g_malloc0`
terminates the program when the allocation fails: `none`. -/
def alloc_msgbuf (msg_id msg_len : Int) : Option message_buf :=
  if msg_len < 0 then none else some (new_msgbuf msg_id msg_len.toNat)

/-- Function `find_msgbuf`, for the `gint32` arguments `msg_id` and `msg_len`.  The C
function returns a pointer into the table; here it returns the entries before
the found or created one, that entry, and the entries after it, so that the
table is `pre ++ m :: post`; `none` when the call does not return. -/
def find_msgbuf : List message_buf → Int → Int →
    Option (List message_buf × message_buf × List message_buf)
  | [], msg_id, msg_len => (alloc_msgbuf msg_id msg_len).map fun n => ([], n, [])
  | m :: rest, msg_id, msg_len =>
    if m.msg_id = msg_id then some ([], m, rest)
    else if m.msg_id > msg_id then
      (alloc_msgbuf msg_id msg_len).map fun n => ([], n, m :: rest)
    else
      (find_msgbuf rest msg_id msg_len).map fun r => (m :: r.1, r.2.1, r.2.2)

/-- The call `memcpy(buf + off, data, len)` for a range inside the buffer. -/
def memcpy_at (buf : List Nat) (off : Nat) (data : List Nat) : List Nat :=
  buf.take off ++ data ++ buf.drop (off + data.length)

/-- The `memcpy` and the `insert_frag` call of `audio_receive_data_msg`, for a
payload `data` at `offset` that has passed the bounds test. -/
def store_frag (m : message_buf) (offset : Nat) (data : List Nat) : Option (Bool × message_buf) :=
  insert_frag { m with buf := memcpy_at m.buf offset data } offset (offset + data.length)

/-- The loop over `msg->streams` in `audio_receive_stream_msg`. -/
def stream_entry_step (profiles : List (Nat × String)) (e : StreamEntry) : List (Nat × String) :=
  match e.profile_id with
  | none => profiles
  | some id => if e.has_stream_id then profiles_insert profiles e.stream_id id else profiles

/-- Function `audio_receive_stream_msg`. -/
def audio_receive_stream_msg (env : Env) (audio : ChimeCallAudio) (pkt : List Nat) :
    Bool × ChimeCallAudio :=
  match env.stream_message__unpack pkt with
  | none => (false, audio)
  | some msg =>
    if !env.has_connection then (false, audio)
    else (true, { audio with profiles := msg.streams.foldl stream_entry_step audio.profiles })

/-- The loop "Now kill *all* pending messages up to and including this one":
entries are removed from the head while their id is below the cutoff. -/
def prune_messages (cutoff : Int) : List message_buf → List message_buf
  | [] => []
  | m :: rest => if m.msg_id ≥ cutoff then m :: rest else prune_messages cutoff rest

/-- The test `m->len > sizeof(*hdr) && ntohs(hdr->len) == m->len &&
ntohs(hdr->type) == XRP_STREAM_MESSAGE` on a completed message. -/
def is_stream_frame (env : Env) (m : message_buf) : Prop :=
  m.len > xrp_header_size ∧ hdr_len m.buf = m.len ∧
    hdr_type m.buf = env.tags.XRP_STREAM_MESSAGE

instance (env : Env) (m : message_buf) : Decidable (is_stream_frame env m) := by
  unfold is_stream_frame; infer_instance

/-- The part of `audio_receive_data_msg` that follows the call of
`find_msgbuf`, for the result `r` of that call (the table is then
`r.1 ++ r.2.1 :: r.2.2`, with `r.2.1` the entry of the message). -/
def data_msg_store (env : Env) (audio : ChimeCallAudio) (msg : DataMessage)
    (r : List message_buf × message_buf × List message_buf) : Option (Bool × ChimeCallAudio) :=
  let m := r.2.1
  if msg.msg_len ≠ m.len then
    some (false, { audio with data_messages := r.1 ++ m :: r.2.2 })
  else if msg.offset + msg.data.length > m.len then
    some (false, { audio with data_messages := r.1 ++ m :: r.2.2 })
  else
    match store_frag m msg.offset msg.data with
    | none => none
    | some (complete, m2) =>
      let audio1 := { audio with data_messages := r.1 ++ m2 :: r.2.2 }
      if complete then
        let audio2 :=
          if is_stream_frame env m2 then
            { (audio_receive_stream_msg env audio1 (m2.buf.drop xrp_header_size)).2 with
                data_next_logical_msg := gint32 (m2.msg_id + 1) }
          else audio1
        some (true, { audio2 with
          data_messages := prune_messages audio2.data_next_logical_msg audio2.data_messages })
      else some (true, audio1)

/-- The reassembly part of `audio_receive_data_msg` (from the replay test to
the end).  The `msg_id` field and the cutoff are declared in headers that are
not part of the sources: the replay test compares the id of the message with
the cutoff by value.  The parameters of `find_msgbuf` are `gint32`: it receives
the id and the length converted to `gint32`. -/
def data_msg_reassemble (env : Env) (audio : ChimeCallAudio) (msg : DataMessage) :
    Option (Bool × ChimeCallAudio) :=
  if msg.msg_id < audio.data_next_logical_msg then some (true, audio)
  else
    match find_msgbuf audio.data_messages (gint32 msg.msg_id) (gint32 msg.msg_len) with
    | none => none
    | some r => data_msg_store env audio msg r

/-- Function `audio_receive_data_msg` on a decoded message. -/
def audio_receive_data_msg_decoded (env : Env) (audio : ChimeCallAudio) (msg : DataMessage) :
    Option (Bool × ChimeCallAudio) :=
  if !msg.has_seq || !msg.has_msg_id || !msg.has_msg_len then some (false, audio)
  else data_msg_reassemble env (data_msg_acks audio msg) msg

/-- Function `audio_receive_data_msg`; `none` when the call does not return. -/
def audio_receive_data_msg (env : Env) (audio : ChimeCallAudio) (pkt : List Nat) :
    Option (Bool × ChimeCallAudio) :=
  match env.data_message__unpack pkt with
  | none => some (false, audio)
  | some msg => audio_receive_data_msg_decoded env audio msg

/-! ## Framing -/

/-- The result of a handler: the returned flag and the session afterwards,
`none` when the handler does not return. -/
abbrev Handled := Option (Bool × ChimeCallAudio)

/-- The length checks and the `switch` of `audio_receive_packet`, with the
three functions it calls as arguments. -/
def audio_receive_packet_with (tags : XrpTags)
    (rt auth data : ChimeCallAudio → List Nat → Handled)
    (audio : ChimeCallAudio) (pkt : List Nat) : Handled :=
  if pkt.length < xrp_header_size then some (false, audio)
  else if pkt.length ≠ hdr_len pkt then some (false, audio)
  else
    let payload := pkt.drop 4
    if hdr_type pkt = tags.XRP_RT_MESSAGE then rt audio payload
    else if hdr_type pkt = tags.XRP_AUTH_MESSAGE then auth audio payload
    else if hdr_type pkt = tags.XRP_DATA_MESSAGE then data audio payload
    else some (false, audio)

/-- Function `audio_receive_packet`, with `now` and `real` the clock values a handler
reads. -/
def audio_receive_packet (env : Env) (now real : Int) (audio : ChimeCallAudio)
    (pkt : List Nat) : Handled :=
  audio_receive_packet_with env.tags
    (fun a p => some (audio_receive_rt_msg env now a p))
    (fun a p => some (audio_receive_auth_msg env now real a p))
    (fun a p => audio_receive_data_msg env a p)
    audio pkt

/-- The packet a peer sends: the header in network byte order (type, then
total length), then the payload. -/
def xrp_encode (type : Nat) (payload : List Nat) : List Nat :=
  [type / 256 % 256, type % 256, (payload.length + 4) / 256 % 256, (payload.length + 4) % 256]
    ++ payload

/-! ## Opening a session -/

/-- Modelled from the spec: `chime_call_transport_connect` is defined outside
this file; the connection is scoped to the mute value it is opened with, which
the session records. -/
def chime_call_transport_connect (audio : ChimeCallAudio) (muted : Bool) : ChimeCallAudio :=
  { audio with muted := muted }

/-- Function `chime_call_audio_open`: `g_new0` zeroes the structure; `seq0` and
`sample0` are the two random values drawn for the outbound counters. -/
def chime_call_audio_open (seq0 sample0 : Nat) (muted : Bool) : ChimeCallAudio :=
  let audio : ChimeCallAudio :=
    { state := ChimeAudioState.AUDIO_STATE_CONNECTING, muted := false,
      send_rt_source := 0, data_ack_source := 0, data_next_seq := 0, data_ack_mask := 0,
      data_next_logical_msg := 0, data_messages := [], last_server_time_offset := 0,
      echo_server_time := false,
      audio_msg := { audio_message__init with
        has_seq := true, seq := seq0, has_sample_time := true, sample_time := sample0 },
      profiles := [], source_ids := 0, live_sources := [], out := [] }
  chime_call_audio_set_state (chime_call_transport_connect audio muted)
    ChimeAudioState.AUDIO_STATE_CONNECTING

/-! ## Runs of the acknowledgement engine -/

/-- What the acknowledgement engine sees: a Data message, or the main loop
running the deferred flush. -/
inductive AckEvent where
  | data (msg : DataMessage)
  | idle
  deriving DecidableEq

/-- One event on the acknowledgement engine.  A Data message runs
`audio_receive_data_msg` from its first test to the `g_idle_add`: a message
without `seq`, `msg_id` or `msg_len` is answered FALSE before the
acknowledgement part and changes nothing (the reassembly that follows the
`g_idle_add` leaves the acknowledgement fields alone, see
`audio_receive_data_msg_decoded_ack_view`).  The deferred flush only runs while it
is scheduled (`data_ack_source` non-zero). -/
def ack_step (audio : ChimeCallAudio) : AckEvent → ChimeCallAudio
  | AckEvent.data msg =>
    if !msg.has_seq || !msg.has_msg_id || !msg.has_msg_len then audio
    else data_msg_acks audio msg
  | AckEvent.idle => if audio.data_ack_source ≠ 0 then idle_send_ack audio else audio

/-- A sequence of events, oldest first. -/
def ack_run (audio : ChimeCallAudio) (evs : List AckEvent) : ChimeCallAudio :=
  evs.foldl ack_step audio

/-- The Data messages of the events carry consecutive 32-bit sequence numbers:
`last` is the sequence number of the latest message so far, if any. -/
def in_order : Option Nat → List AckEvent → Prop
  | _, [] => True
  | last, AckEvent.idle :: rest => in_order last rest
  | none, AckEvent.data m :: rest => in_order (some m.seq) rest
  | some q, AckEvent.data m :: rest => m.seq = (q + 1) % 2 ^ 32 ∧ in_order (some m.seq) rest

/-- Every Data message of the events carries the `seq`, `msg_id` and `msg_len`
fields, so none is answered FALSE by the first test of
`audio_receive_data_msg`. -/
def carries_fields (evs : List AckEvent) : Prop :=
  ∀ m, AckEvent.data m ∈ evs →
    m.has_seq = true ∧ m.has_msg_id = true ∧ m.has_msg_len = true

/-- The latest event is a Data message. -/
def ends_with_data : List AckEvent → Bool
  | [] => false
  | [AckEvent.data _] => true
  | [AckEvent.idle] => false
  | _ :: e :: rest => ends_with_data (e :: rest)

/-- Some event is a Data message. -/
def has_data : List AckEvent → Bool
  | [] => false
  | AckEvent.data _ :: _ => true
  | AckEvent.idle :: rest => has_data rest

/-- A Data message that carries sequence number `seq` and message id, length,
offset and payload as given. -/
def data_msg (seq msg_id msg_len offset : Nat) (data : List Nat) : DataMessage :=
  { data_message__init with
    has_seq := true, seq := seq, has_msg_id := true, msg_id := msg_id,
    has_msg_len := true, msg_len := msg_len, offset := offset, data := data }

/-! ## A concrete set of collaborators

A small codec and tag assignment on which the definitions can be evaluated. -/

/-- Tags 2, 3, 4 and 5 for RealTime, Auth, Data and Stream. -/
def sample_tags : XrpTags :=
  { XRP_RT_MESSAGE := 2, XRP_AUTH_MESSAGE := 3, XRP_DATA_MESSAGE := 4, XRP_STREAM_MESSAGE := 5 }

/-- A Data codec: sequence number, message id, message length and offset, one
byte each, then the payload. -/
def sample_data_unpack : List Nat → Option DataMessage
  | seq :: msg_id :: msg_len :: offset :: data =>
    some (data_msg seq (msg_id % 2 ^ 32) msg_len offset data)
  | _ => none

/-- An Auth codec: one byte, non-zero for "authorized". -/
def sample_auth_unpack : List Nat → Option AuthMessage
  | [b] => some { has_authorized := true, authorized := b ≠ 0 }
  | _ => none

/-- Collaborators with the sample codecs; RealTime and Stream payloads do not
decode. -/
def sample_env : Env :=
  { tags := sample_tags,
    rtmessage__unpack := fun _ => none,
    auth_message__unpack := sample_auth_unpack,
    data_message__unpack := sample_data_unpack,
    stream_message__unpack := fun _ => none,
    chime_call_participant_audio_stats := fun _ _ _ => false,
    has_connection := true,
    msg_id_32 := fun pkt msg h => by
      unfold sample_data_unpack at h
      split at h
      · cases h
        exact Nat.mod_lt _ (by norm_num)
      · cases h }

/-- A freshly opened, unmuted session. -/
def sample_session : ChimeCallAudio := chime_call_audio_open 0 0 false

/-! ## The acknowledgement fields along a run -/

/-- The sequence number of the latest Data message among the events, `last`
when there is none. -/
def last_seq : Option Nat → List AckEvent → Option Nat
  | last, [] => last
  | last, AckEvent.idle :: rest => last_seq last rest
  | _, AckEvent.data m :: rest => last_seq (some m.seq) rest

/-- The state of the acknowledgement engine along an in-order delivery: what
holds after events whose latest Data message, if any, carried `last`, and
whose latest event was a Data message exactly when `d` is set. -/
def in_order_state (last : Option Nat) (d : Bool) (audio : ChimeCallAudio) : Prop :=
  (audio.data_ack_source = 0 → audio.data_ack_mask = 0) ∧
  (d = true ↔ audio.data_ack_source ≠ 0) ∧
  match last with
  | none => audio.data_next_seq = 0
  | some q => audio.data_next_seq = (q + 1) % 2 ^ 32

/-- The acknowledgement fields of a session: cursor, bitmap, and whether the
deferred flush is scheduled. -/
def ack_view (audio : ChimeCallAudio) : Nat × Nat × Bool :=
  (audio.data_next_seq, audio.data_ack_mask, decide (audio.data_ack_source ≠ 0))

/-- What `ack_walk` does to cursor, bitmap and `pending`. -/
def view_walk (seq : Nat) : Nat → Nat × Nat × Bool → Nat × Nat × Bool
  | 0, v => v
  | fuel + 1, (c, m, pending) =>
    if seq > c then
      if m &&& 0x8000000000000000 ≠ 0 then (c, 0, false)
      else view_walk seq fuel (c + 1, (if pending then (m <<< 1) % 2 ^ 64 ||| 1
                                       else (m <<< 1) % 2 ^ 64), false)
    else (c, m, pending)

/-- What `data_msg_acks` does to the acknowledgement fields. -/
def view_data (v : Nat × Nat × Bool) (seq : Nat) : Nat × Nat × Bool :=
  let r : Nat × Nat × Bool :=
    if v.2.2 || v.2.1 ≠ 0 then view_walk seq (seq - v.1) (v.1, v.2.1, v.2.2)
    else (v.1, v.2.1, v.2.2)
  ((seq + 1) % 2 ^ 32,
    (if r.2.2 then (r.2.1 <<< 1) % 2 ^ 64 ||| 1 else (r.2.1 <<< 1) % 2 ^ 64), true)

/-- What `ack_step` does to the acknowledgement fields. -/
def view_step (v : Nat × Nat × Bool) : AckEvent → Nat × Nat × Bool
  | AckEvent.data msg =>
    if !msg.has_seq || !msg.has_msg_id || !msg.has_msg_len then v
    else view_data v msg.seq
  | AckEvent.idle => if v.2.2 then (v.1, 0, false) else v

/-! ## Fragment lists and the bytes they cover -/

/-- The merge invariant of a fragment list: every fragment ends before each
later one starts (so the list is sorted and no two ranges overlap or touch),
and no fragment ends before it starts. -/
def frags_merged (l : List message_frag) : Prop :=
  l.Pairwise (fun f g => f.end_ < g.start) ∧ ∀ f ∈ l, f.start ≤ f.end_

/-- Byte offset `i` lies in one of the stored ranges `[start, end_)`. -/
def frag_covered (l : List message_frag) (i : Nat) : Prop :=
  ∃ f ∈ l, f.start ≤ i ∧ i < f.end_

/-- Successive `insert_frag` calls on one message, oldest first; `none` when
one of them does not return. -/
def insert_frags : message_buf → List (Nat × Nat) → Option message_buf
  | m, [] => some m
  | m, r :: rest =>
    match insert_frag m r.1 r.2 with
    | none => none
    | some (_, m1) => insert_frags m1 rest

/-- The cascading merge of `insert_frag` is sound for `[start, end_)` on the
list: if the new range reaches the start of the fragment after the one it is
merged into, that fragment is the last one of the list and ends at or after
`end_`.  (Otherwise the loop either takes a shorter end than the new range's
or goes on reading the fragment it has released.) -/
def cascade_ok (start end_ : Nat) : List message_frag → Prop
  | [] => True
  | f :: rest =>
    if end_ < f.start then True
    else if start ≤ f.end_ then
      match rest with
      | [] => True
      | nf :: nf_next => nf.start ≤ end_ → nf_next = [] ∧ end_ ≤ nf.end_
    else cascade_ok start end_ rest

/-- Successive in-bounds payloads `(offset, data)` stored into one message,
oldest first: the flags `insert_frag` returned and the message afterwards;
`none` when a call does not return. -/
def store_all : message_buf → List (Nat × List Nat) → Option (List Bool × message_buf)
  | m, [] => some ([], m)
  | m, op :: rest =>
    match store_frag m op.1 op.2 with
    | none => none
    | some (r, m1) => (store_all m1 rest).map fun x => (r :: x.1, x.2)

/-- Every insertion of the sequence meets `cascade_ok` on the fragment list it
finds. -/
def cascade_ok_run : message_buf → List (Nat × List Nat) → Prop
  | _, [] => True
  | m, op :: rest =>
    cascade_ok op.1 (op.1 + op.2.length) m.frags ∧
      match store_frag m op.1 op.2 with
      | none => True
      | some (_, m1) => cascade_ok_run m1 rest

/-- Byte offset `i` lies in the range of one of the payloads. -/
def range_covered (ops : List (Nat × List Nat)) (i : Nat) : Prop :=
  ∃ op ∈ ops, op.1 ≤ i ∧ i < op.1 + op.2.length

/-- The byte at offset `i` once the payloads have been written at their
offsets, oldest first, over a byte that was `b`: the byte of the latest
payload whose range contains `i`, and `b` when there is none. -/
def overlay (ops : List (Nat × List Nat)) (i : Nat) (b : Nat) : Nat :=
  ops.foldl (fun b op => if op.1 ≤ i ∧ i < op.1 + op.2.length then op.2.getD (i - op.1) 0 else b) b

/-- A pending message is well formed: its fragment list is merged, its
fragments end within the declared length, and its buffer has that length. -/
def msgbuf_ok (m : message_buf) : Prop :=
  frags_merged m.frags ∧ (∀ f ∈ m.frags, f.end_ ≤ m.len) ∧ m.buf.length = m.len

/-! ## Reachable sessions -/

/-- One event of an open session: a packet arrives and its handler returns,
the deferred ack flush runs while it is scheduled, or the RealTime timer fires
while it is armed. -/
inductive Step (env : Env) : ChimeCallAudio → ChimeCallAudio → Prop where
  | packet (now real : Int) (pkt : List Nat) (a a' : ChimeCallAudio) (r : Bool) :
      audio_receive_packet env now real a pkt = some (r, a') → Step env a a'
  | idle_ack (a : ChimeCallAudio) : a.data_ack_source ≠ 0 → Step env a (idle_send_ack a)
  | rt_tick (now real : Int) (a : ChimeCallAudio) :
      a.send_rt_source ≠ 0 → Step env a (do_send_rt_packet now real a)

/-- The sessions that a freshly opened session can get into. -/
inductive Reachable (env : Env) : ChimeCallAudio → Prop where
  | opened (seq0 sample0 : Nat) (muted : Bool) :
      Reachable env (chime_call_audio_open seq0 sample0 muted)
  | step (a a' : ChimeCallAudio) : Reachable env a → Step env a a' → Reachable env a'

/-- What every reachable pending-message table satisfies: it is in strictly
ascending order of stored id, every stored id is a `gint32` value, and no
entry with a non-negative id lies below the cutoff. -/
def table_ok (audio : ChimeCallAudio) : Prop :=
  audio.data_messages.Pairwise (fun x y => x.msg_id < y.msg_id) ∧
  ∀ m ∈ audio.data_messages,
    m.msg_id < 2147483648 ∧ (0 ≤ m.msg_id → audio.data_next_logical_msg ≤ m.msg_id)

/-- The reassembler's part of the session: the table and the cutoff. -/
def data_view (audio : ChimeCallAudio) : List message_buf × Int :=
  (audio.data_messages, audio.data_next_logical_msg)

/-- The sample session after a first Data packet (sequence 1) that brings one
byte of the 8-byte message 5. -/
def sample_pending : ChimeCallAudio :=
  ((audio_receive_data_msg sample_env sample_session [1, 5, 8, 0, 1]).map Prod.snd).getD
    sample_session

/-- The sample session after a first Data packet (sequence 1) that brings one
byte of the 8-byte message with id 2^31. -/
def sample_wide_id : ChimeCallAudio :=
  ((audio_receive_data_msg sample_env sample_session [1, 2147483648, 8, 0, 1]).map
    Prod.snd).getD sample_session

/-! ## Reopening a session -/

/-- Modelled from the spec: `chime_call_transport_disconnect` is defined
outside this file; it instructs the transport collaborator to disconnect and
leaves the session fields that this file uses as they are. -/
def chime_call_transport_disconnect (audio : ChimeCallAudio) (_hangup : Bool) : ChimeCallAudio :=
  audio

/-- Function `chime_call_audio_reopen`. -/
def chime_call_audio_reopen (audio : ChimeCallAudio) (muted : Bool) : ChimeCallAudio :=
  if muted ≠ audio.muted then
    let a1 := if audio.send_rt_source ≠ 0 then g_source_remove audio audio.send_rt_source
              else audio
    let a2 := if a1.data_ack_source ≠ 0 then g_source_remove a1 a1.data_ack_source else a1
    chime_call_audio_set_state
      (chime_call_transport_connect (chime_call_transport_disconnect a2 true) muted)
      ChimeAudioState.AUDIO_STATE_CONNECTING
  else audio

/-! ## More sample sessions and collaborators -/

/-- The sample session after message 6, a 5-byte Stream frame, has been
completed (sequence 2): the cutoff is 7. -/
def sample_completed : ChimeCallAudio :=
  ((audio_receive_data_msg sample_env sample_pending [2, 6, 5, 0, 0, 5, 0, 5, 7]).map
    Prod.snd).getD sample_pending

/-- Collaborators whose Data codec yields a message for id 3 that carries no
sequence number. -/
def sample_env_no_seq : Env :=
  { sample_env with
    data_message__unpack := fun _ => some { data_msg 0 3 1 0 [9] with has_seq := false },
    msg_id_32 := fun _ msg h => by
      cases h
      decide }

/-- A freshly opened, muted session. -/
def sample_muted_session : ChimeCallAudio := chime_call_audio_open 0 0 true

/-- A RealTime codec: one byte is a message whose audio part carries that
server time; five bytes (stream id, has_muted, muted, has_volume, volume) are a
message with one profile entry and no audio part. -/
def sample_rt_unpack : List Nat → Option RTMessage
  | [t] =>
    some { audio := some { audio_message__init with has_server_time := true, server_time := t },
           profiles := [] }
  | [stream_id, has_muted, muted, has_volume, volume] =>
    some { audio := none,
           profiles := [{ has_stream_id := true, stream_id := stream_id,
                          has_muted := has_muted ≠ 0, muted := muted ≠ 0,
                          has_volume := has_volume ≠ 0, volume := volume,
                          has_signal_strength := false, signal_strength := 0 }] }
  | _ => none

/-- The sample collaborators with the RealTime codec. -/
def sample_env_rt : Env :=
  { sample_env with rtmessage__unpack := sample_rt_unpack }

/-- The sample session after server time 100 was received at local time 40
and a RealTime packet was sent at local time 50 (both stamps 110). -/
def sample_echoed : ChimeCallAudio :=
  do_send_rt_packet 50 0 (audio_receive_rt_msg sample_env_rt 40 sample_session [100]).2

/-- The level of a profile entry in the words of the specification: -128 if
explicitly muted, otherwise the negation of the declared volume, none when the
entry is not explicitly muted and declares no volume. -/
def profile_level (p : ProfileMessage) : Option Int :=
  if p.has_muted && p.muted then some (-128)
  else if p.has_volume then some (-p.volume)
  else none

/-- What one profile entry forwards to the participant-stats collaborator in
the words of the specification: nothing when its stream id is absent or does
not resolve or it has no level, otherwise the participant, the level, and the
signal strength as declared or -1. -/
def forwarded_stats (profiles : List (Nat × String)) (p : ProfileMessage) : Option Output :=
  if p.has_stream_id then
    match profiles_lookup profiles p.stream_id, profile_level p with
    | some id, some v =>
      some (Output.audio_stats id v (if p.has_signal_strength then p.signal_strength else -1))
    | _, _ => none
  else none

/-- The clock fields of the session: offset, echo flag, and the outbound
RealTime message. -/
def clock_view (audio : ChimeCallAudio) : Int × Bool × AudioMessage :=
  (audio.last_server_time_offset, audio.echo_server_time, audio.audio_msg)

/-- The unmuted sample session after a successful Auth packet and a first
Data packet: the RealTime timer (source 1) and the deferred ack flush
(source 2) are both scheduled. -/
def sample_armed : ChimeCallAudio :=
  ((audio_receive_data_msg sample_env
      (audio_receive_auth_msg sample_env 0 0 sample_session [1]).2 [1, 5, 8, 0, 1]).map
    Prod.snd).getD sample_session

/-- The session `sample_armed` reopened muted. -/
def sample_reopened : ChimeCallAudio := chime_call_audio_reopen sample_armed true

/-! ## Queued messages (`messages.c`) -/

/-- A `GTimeVal`: seconds and microseconds. -/
structure GTimeVal where
  tv_sec : Int
  tv_usec : Int
  deriving DecidableEq

/-- What the file reads of a queued `JsonNode`: which node it is, and its
"CreatedOn" member when `parse_string` finds one. -/
structure JsonNode where
  id : Nat
  created_on : Option String
  deriving DecidableEq

/-- The record `struct msg_sort`. -/
structure msg_sort where
  tm : GTimeVal
  node : JsonNode
  deriving DecidableEq

/-- Function `compare_ms`. -/
def compare_ms (a b : msg_sort) : Int :=
  if a.tm.tv_sec > b.tm.tv_sec then 1
  else if a.tm.tv_sec = b.tm.tv_sec ∧ a.tm.tv_usec > b.tm.tv_usec then 1
  else 0

/-- GLib's `g_list_insert_sorted`: the list is walked while the comparison
function places the new element after the current one (result above zero);
the new element goes before the first element where it does not, or at the
end. -/
def g_list_insert_sorted {α : Type} (func : α → α → Int) : List α → α → List α
  | [], data => [data]
  | x :: rest, data =>
    if func data x > 0 then x :: g_list_insert_sorted func rest data
    else data :: x :: rest

/-- Function `insert_queued_msg`, with `iso8601` the outcome of
`g_time_val_from_iso8601` on a string.  It always returns TRUE, so the entry
leaves the hash table. -/
def insert_queued_msg (iso8601 : String → Option GTimeVal) (l : List msg_sort)
    (node : JsonNode) : List msg_sort :=
  match node.created_on with
  | none => l
  | some str =>
    match iso8601 str with
    | none => l
    | some tm => g_list_insert_sorted compare_ms l { tm := tm, node := node }

/-- The delivery loop of `chime_complete_messages`: the calls of `msgs->cb`
(node and `tv_sec`), oldest first, and the "CreatedOn" string noted down for
the last message.  `ms` is the data of the first link, so `g_list_remove`
unlinks that link. -/
def deliver_queued : List msg_sort → List (JsonNode × Int) × Option String
  | [] => ([], none)
  | ms :: rest =>
    ((ms.node, ms.tm.tv_sec) :: (deliver_queued rest).1,
      if rest = [] then ms.node.created_on else (deliver_queued rest).2)

/-- Function `chime_complete_messages`, with `nodes` the values of the hash
table in the order in which `g_hash_table_foreach_remove` visits them. -/
def chime_complete_messages (iso8601 : String → Option GTimeVal) (nodes : List JsonNode) :
    List (JsonNode × Int) × Option String :=
  deliver_queued (nodes.foldl (insert_queued_msg iso8601) [])

/-- The order of delivery: `a` is not later than `b`, by seconds and then by
microseconds. -/
def ms_le (a b : msg_sort) : Prop :=
  a.tm.tv_sec < b.tm.tv_sec ∨ (a.tm.tv_sec = b.tm.tv_sec ∧ a.tm.tv_usec ≤ b.tm.tv_usec)

/-- A parser for the sample timestamps. -/
def sample_iso8601 (s : String) : Option GTimeVal :=
  if s = "t5.2" then some { tv_sec := 5, tv_usec := 2 }
  else if s = "t5.1" then some { tv_sec := 5, tv_usec := 1 }
  else if s = "t3.9" then some { tv_sec := 3, tv_usec := 9 }
  else none

/-! # Properties

## Framing -/

theorem hdr_len_xrp_encode (type : Nat) (payload : List Nat) (h : payload.length + 4 < 65536) :
    hdr_len (xrp_encode type payload) = payload.length + 4 := by
  simp only [hdr_len, ntohs_at, xrp_encode, List.cons_append, List.getD_cons_succ,
    List.getD_cons_zero]
  omega

theorem hdr_type_xrp_encode (type : Nat) (payload : List Nat) (h : type < 65536) :
    hdr_type (xrp_encode type payload) = type := by
  simp only [hdr_type, ntohs_at, xrp_encode, List.cons_append, List.getD_cons_succ,
    List.getD_cons_zero]
  omega

/-- C1. `audio_receive_packet` rejects a packet that is shorter than the
4-byte header, or whose big-endian length field differs from its actual
length, or whose type tag is none of RealTime, Auth, Data: it returns FALSE and
leaves the session as it was, whatever the three handlers are (none of them
is called). -/
theorem audio_receive_packet_rejects (env : Env) (now real : Int)
    (rt auth data : ChimeCallAudio → List Nat → Handled)
    (audio : ChimeCallAudio) (pkt : List Nat)
    (h : pkt.length < 4 ∨ hdr_len pkt ≠ pkt.length ∨
      (hdr_type pkt ≠ env.tags.XRP_AUTH_MESSAGE ∧ hdr_type pkt ≠ env.tags.XRP_RT_MESSAGE ∧
        hdr_type pkt ≠ env.tags.XRP_DATA_MESSAGE)) :
    audio_receive_packet_with env.tags rt auth data audio pkt = some (false, audio) ∧
    audio_receive_packet env now real audio pkt = some (false, audio) := by
  have key : ∀ rt auth data : ChimeCallAudio → List Nat → Handled,
      audio_receive_packet_with env.tags rt auth data audio pkt = some (false, audio) := by
    intro rt auth data
    unfold audio_receive_packet_with xrp_header_size
    rcases h with h | h | ⟨h1, h2, h3⟩
    · simp [h]
    · by_cases h4 : pkt.length < 4
      · simp [h4]
      · simp [h4, Ne.symm h]
    · by_cases h4 : pkt.length < 4
      · simp [h4]
      · by_cases h5 : pkt.length ≠ hdr_len pkt
        · simp [h4, h5]
        · simp [h4, h5, h1, h2, h3]
  exact ⟨key rt auth data, key _ _ _⟩

/-- C1, on a 3-byte packet and the sample collaborators. -/
theorem audio_receive_packet_rejects_witness :
    audio_receive_packet_with sample_env.tags (fun _ _ => none) (fun _ _ => none)
        (fun _ _ => none) sample_session [0, 4, 0] = some (false, sample_session) ∧
      audio_receive_packet sample_env 0 0 sample_session [0, 4, 0] =
        some (false, sample_session) :=
  audio_receive_packet_rejects sample_env 0 0 _ _ _ sample_session [0, 4, 0]
    (Or.inl (by decide))

/-- C2. Framer round trip: for each of the tags RealTime, Auth and Data and
every payload whose length plus 4 fits in 16 bits, the packet made of the
network-byte-order header (type, 4 + payload length) and the payload is handed
to the handler of exactly that type with exactly that payload, whose length is
the packet length minus 4. -/
theorem audio_receive_packet_round_trip (env : Env) (now real : Int)
    (rt auth data : ChimeCallAudio → List Nat → Handled)
    (audio : ChimeCallAudio) (payload : List Nat)
    (hw : env.tags.wellFormed) (hlen : payload.length + 4 < 65536) :
    (audio_receive_packet_with env.tags rt auth data audio
        (xrp_encode env.tags.XRP_RT_MESSAGE payload) = rt audio payload ∧
      audio_receive_packet_with env.tags rt auth data audio
        (xrp_encode env.tags.XRP_AUTH_MESSAGE payload) = auth audio payload ∧
      audio_receive_packet_with env.tags rt auth data audio
        (xrp_encode env.tags.XRP_DATA_MESSAGE payload) = data audio payload) ∧
    (audio_receive_packet env now real audio (xrp_encode env.tags.XRP_RT_MESSAGE payload) =
        some (audio_receive_rt_msg env now audio payload) ∧
      audio_receive_packet env now real audio (xrp_encode env.tags.XRP_AUTH_MESSAGE payload) =
        some (audio_receive_auth_msg env now real audio payload) ∧
      audio_receive_packet env now real audio (xrp_encode env.tags.XRP_DATA_MESSAGE payload) =
        audio_receive_data_msg env audio payload) ∧
    ∀ type, (xrp_encode type payload).length - 4 = payload.length ∧
      (xrp_encode type payload).drop 4 = payload := by
  obtain ⟨h1, h2, h3, b1, b2, b3⟩ := hw
  have key : ∀ rt auth data : ChimeCallAudio → List Nat → Handled,
      audio_receive_packet_with env.tags rt auth data audio
        (xrp_encode env.tags.XRP_RT_MESSAGE payload) = rt audio payload ∧
      audio_receive_packet_with env.tags rt auth data audio
        (xrp_encode env.tags.XRP_AUTH_MESSAGE payload) = auth audio payload ∧
      audio_receive_packet_with env.tags rt auth data audio
        (xrp_encode env.tags.XRP_DATA_MESSAGE payload) = data audio payload := by
    intro rt auth data
    have hl : ∀ t, (xrp_encode t payload).length = payload.length + 4 := by
      intro t; simp [xrp_encode]
    have hd : ∀ t, (xrp_encode t payload).drop 4 = payload := by
      intro t; simp [xrp_encode]
    refine ⟨?_, ?_, ?_⟩
    · unfold audio_receive_packet_with xrp_header_size
      rw [hdr_len_xrp_encode _ _ hlen, hdr_type_xrp_encode _ _ b1, hl, hd]
      simp
    · unfold audio_receive_packet_with xrp_header_size
      rw [hdr_len_xrp_encode _ _ hlen, hdr_type_xrp_encode _ _ b2, hl, hd]
      simp [Ne.symm h1]
    · unfold audio_receive_packet_with xrp_header_size
      rw [hdr_len_xrp_encode _ _ hlen, hdr_type_xrp_encode _ _ b3, hl, hd]
      simp [Ne.symm h2, Ne.symm h3]
  refine ⟨key rt auth data, key _ _ _, ?_⟩
  intro t
  simp [xrp_encode]

/-- C2, on a two-byte payload and the sample collaborators. -/
theorem audio_receive_packet_round_trip_witness :
    (audio_receive_packet_with sample_env.tags (fun _ p => some (p = [7, 9], sample_session))
        (fun _ _ => none) (fun _ _ => none) sample_session
        (xrp_encode sample_env.tags.XRP_RT_MESSAGE [7, 9]) = some (true, sample_session)) ∧
    audio_receive_packet sample_env 0 0 sample_session
        (xrp_encode sample_env.tags.XRP_AUTH_MESSAGE [1]) =
      some (audio_receive_auth_msg sample_env 0 0 sample_session [1]) := by
  have h := audio_receive_packet_round_trip sample_env 0 0
    (fun _ p => some (decide (p = [7, 9]), sample_session)) (fun _ _ => none) (fun _ _ => none)
    sample_session [7, 9] (by decide) (by decide)
  have h2 := audio_receive_packet_round_trip sample_env 0 0
    (fun _ _ => none) (fun _ _ => none) (fun _ _ => none)
    sample_session [1] (by decide) (by decide)
  refine ⟨?_, h2.2.1.2.1⟩
  rw [h.1.1]
  simp

/-! ## Acknowledgements -/

theorem lor_one_ne_zero (x : Nat) : x ||| 1 ≠ 0 := by
  intro h
  have h2 := congrArg (fun n => Nat.testBit n 0) h
  simp [Nat.testBit_or] at h2

theorem do_send_ack_mask (audio : ChimeCallAudio) : (do_send_ack audio).data_ack_mask = 0 := by
  by_cases h : audio.data_ack_mask = 0 <;>
    simp [h, do_send_ack, chime_call_transport_send_packet]

theorem do_send_ack_next_seq (audio : ChimeCallAudio) :
    (do_send_ack audio).data_next_seq = audio.data_next_seq := by
  by_cases h : audio.data_ack_mask = 0 <;>
    simp [h, do_send_ack, chime_call_transport_send_packet]

/-- When the walk is not entered, or is left at once, a Data message sets the
cursor, shifts the bitmap once, records the pending acknowledgement in the low
bit and schedules the deferred flush; nothing is sent. -/
theorem data_msg_acks_no_walk (audio : ChimeCallAudio) (msg : DataMessage)
    (h : msg.seq ≤ audio.data_next_seq ∨
      (audio.data_ack_source = 0 ∧ audio.data_ack_mask = 0)) :
    (data_msg_acks audio msg).data_next_seq = (msg.seq + 1) % 2 ^ 32 ∧
    (data_msg_acks audio msg).data_ack_mask =
      (if audio.data_ack_source ≠ 0 then (audio.data_ack_mask <<< 1) % 2 ^ 64 ||| 1
       else (audio.data_ack_mask <<< 1) % 2 ^ 64) ∧
    (data_msg_acks audio msg).data_ack_source ≠ 0 ∧
    (data_msg_acks audio msg).out = audio.out := by
  have hr : (if (decide (audio.data_ack_source ≠ 0) || decide (audio.data_ack_mask ≠ 0)) = true
      then ack_walk msg.seq (msg.seq - audio.data_next_seq)
        (audio, decide (audio.data_ack_source ≠ 0))
      else (audio, decide (audio.data_ack_source ≠ 0))) =
      (audio, decide (audio.data_ack_source ≠ 0)) := by
    rcases h with h | ⟨h1, h2⟩
    · rw [Nat.sub_eq_zero_of_le h]
      simp [ack_walk]
    · simp [h1, h2]
  unfold data_msg_acks schedule_idle_send_ack
  simp only [hr]
  by_cases hs : audio.data_ack_source = 0
  · simp [hs, g_source_add]
  · simp [hs]

theorem in_order_snoc (p : List AckEvent) (e : AckEvent) (last : Option Nat) :
    in_order last (p ++ [e]) ↔
      in_order last p ∧
        match e with
        | AckEvent.idle => True
        | AckEvent.data m =>
          match last_seq last p with
          | none => True
          | some q => m.seq = (q + 1) % 2 ^ 32 := by
  induction p generalizing last with
  | nil =>
    cases e with
    | idle => simp [in_order]
    | data m => cases last <;> simp [in_order, last_seq]
  | cons x xs ih =>
    cases x with
    | idle => simpa [in_order, last_seq] using ih last
    | data m =>
      cases last with
      | none => simpa [in_order, last_seq] using ih (some m.seq)
      | some q =>
        show (m.seq = (q + 1) % 2 ^ 32 ∧ in_order (some m.seq) (xs ++ [e])) ↔
          (m.seq = (q + 1) % 2 ^ 32 ∧ in_order (some m.seq) xs) ∧ _
        rw [ih (some m.seq)]
        simp only [last_seq]
        tauto

theorem ends_with_data_snoc (p : List AckEvent) (e : AckEvent) :
    ends_with_data (p ++ [e]) = (match e with | AckEvent.data _ => true | AckEvent.idle => false) := by
  induction p with
  | nil => cases e <;> rfl
  | cons x xs ih =>
    cases xs with
    | nil => cases x <;> cases e <;> rfl
    | cons y ys =>
      simp only [List.cons_append] at ih ⊢
      simpa [ends_with_data] using ih

theorem ends_with_data_has_data (p : List AckEvent) (h : ends_with_data p = true) :
    has_data p = true := by
  induction p with
  | nil => cases h
  | cons x xs ih =>
    cases x with
    | data m => rfl
    | idle =>
      cases xs with
      | nil => cases h
      | cons y ys => exact ih h

theorem last_seq_snoc (p : List AckEvent) (e : AckEvent) (last : Option Nat) :
    last_seq last (p ++ [e]) =
      (match e with | AckEvent.data m => some m.seq | AckEvent.idle => last_seq last p) := by
  induction p generalizing last with
  | nil => cases e <;> rfl
  | cons x xs ih => cases x <;> simp [last_seq, ih]

theorem has_data_iff_last_seq (p : List AckEvent) :
    has_data p = (last_seq none p).isSome := by
  have h : ∀ (l : List AckEvent) (q : Nat), (last_seq (some q) l).isSome = true := by
    intro l
    induction l with
    | nil => intro q; rfl
    | cons x xs ih => intro q; cases x <;> simp [last_seq, ih]
  induction p with
  | nil => rfl
  | cons x xs ih => cases x <;> simp [has_data, last_seq, ih, h]

theorem ack_run_snoc (audio : ChimeCallAudio) (p : List AckEvent) (e : AckEvent) :
    ack_run audio (p ++ [e]) = ack_step (ack_run audio p) e := by
  simp [ack_run, List.foldl_append]

theorem carries_fields_snoc (p : List AckEvent) (e : AckEvent) :
    carries_fields (p ++ [e]) ↔
      carries_fields p ∧
        match e with
        | AckEvent.idle => True
        | AckEvent.data m => m.has_seq = true ∧ m.has_msg_id = true ∧ m.has_msg_len = true := by
  unfold carries_fields
  constructor
  · intro h
    refine ⟨fun m hm => h m (List.mem_append_left _ hm), ?_⟩
    cases e with
    | idle => trivial
    | data m => exact h m (List.mem_append_right _ (List.mem_singleton_self _))
  · rintro ⟨h1, h2⟩ m hm
    rcases List.mem_append.mp hm with h | h
    · exact h1 m h
    · rw [List.mem_singleton] at h
      subst h
      exact h2

/-- A Data message that carries the three fields passes the first test of
`audio_receive_data_msg`. -/
theorem ack_step_data (audio : ChimeCallAudio) (m : DataMessage)
    (h : m.has_seq = true ∧ m.has_msg_id = true ∧ m.has_msg_len = true) :
    ack_step audio (AckEvent.data m) = data_msg_acks audio m := by
  simp [ack_step, h.1, h.2.1, h.2.2]

/-- Along an in-order delivery from a freshly opened session the
acknowledgement engine stays in `in_order_state`. -/
theorem in_order_state_run (seq0 sample0 : Nat) (muted : Bool) (p : List AckEvent)
    (h : in_order none p) (hf : carries_fields p) :
    in_order_state (last_seq none p) (ends_with_data p)
      (ack_run (chime_call_audio_open seq0 sample0 muted) p) := by
  induction p using List.reverseRecOn with
  | nil =>
    simp [in_order_state, last_seq, ends_with_data, ack_run, chime_call_audio_open,
      chime_call_audio_set_state, chime_call_transport_connect]
  | append_singleton p e ih =>
    rw [in_order_snoc] at h
    rw [carries_fields_snoc] at hf
    obtain ⟨hp, he⟩ := h
    obtain ⟨hfp, hfe⟩ := hf
    obtain ⟨i1, i2, i3⟩ := ih hp hfp
    rw [ack_run_snoc, ends_with_data_snoc, last_seq_snoc]
    cases e with
    | idle =>
      simp only [ack_step]
      by_cases hs : (ack_run (chime_call_audio_open seq0 sample0 muted) p).data_ack_source = 0
      · rw [if_neg (by simpa using hs)]
        refine ⟨i1, ?_, i3⟩
        simp [hs]
      · rw [if_pos hs]
        have hm := do_send_ack_mask (ack_run (chime_call_audio_open seq0 sample0 muted) p)
        have hc := do_send_ack_next_seq (ack_run (chime_call_audio_open seq0 sample0 muted) p)
        refine ⟨?_, ?_, ?_⟩
        · intro _
          simpa [idle_send_ack] using hm
        · simp [idle_send_ack]
        · simp only [idle_send_ack]
          rw [hc]
          exact i3
    | data m =>
      rw [ack_step_data _ m hfe]
      have hnw : m.seq ≤ (ack_run (chime_call_audio_open seq0 sample0 muted) p).data_next_seq ∨
          ((ack_run (chime_call_audio_open seq0 sample0 muted) p).data_ack_source = 0 ∧
            (ack_run (chime_call_audio_open seq0 sample0 muted) p).data_ack_mask = 0) := by
        cases hl : last_seq none p with
        | none =>
          right
          have hd : has_data p = false := by rw [has_data_iff_last_seq, hl]; rfl
          have he2 : ends_with_data p = false := by
            cases hx : ends_with_data p with
            | false => rfl
            | true => rw [ends_with_data_has_data p hx] at hd; cases hd
          have hs0 : (ack_run (chime_call_audio_open seq0 sample0 muted) p).data_ack_source = 0 := by
            by_contra hne
            rw [i2.mpr hne] at he2
            cases he2
          exact ⟨hs0, i1 hs0⟩
        | some q =>
          left
          rw [hl] at he i3
          simp only at he i3
          omega
      obtain ⟨h1, h2, h3, -⟩ := data_msg_acks_no_walk _ m hnw
      refine ⟨fun h0 => absurd h0 h3, ?_, h1⟩
      simp [h3]

/-- C6 (amended). For Data messages that carry the `seq`, `msg_id` and
`msg_len` fields, delivered strictly in order (each sequence number one more
than the previous, modulo 2^32) to a freshly opened session, under any
interleaving of deferred ack flushes: after each message the cursor is the
message's sequence number plus one, hence one more than after the previous
message; the ack bitmap is zero after a message exactly when the event before
it was not a Data message (it is the first message, or the deferred flush ran
since the previous one), which is exactly when no ack was pending on its
arrival; otherwise the low bit of the bitmap is set. -/
theorem in_order_delivery_cursor_and_bitmap (seq0 sample0 : Nat) (muted : Bool)
    (pre : List AckEvent) (msg : DataMessage)
    (h : in_order none (pre ++ [AckEvent.data msg]))
    (hf : carries_fields (pre ++ [AckEvent.data msg])) :
    (ack_run (chime_call_audio_open seq0 sample0 muted)
        (pre ++ [AckEvent.data msg])).data_next_seq = (msg.seq + 1) % 2 ^ 32 ∧
    (has_data pre = true →
      (ack_run (chime_call_audio_open seq0 sample0 muted)
          (pre ++ [AckEvent.data msg])).data_next_seq =
        ((ack_run (chime_call_audio_open seq0 sample0 muted) pre).data_next_seq + 1) % 2 ^ 32) ∧
    ((ack_run (chime_call_audio_open seq0 sample0 muted)
        (pre ++ [AckEvent.data msg])).data_ack_mask = 0 ↔ ends_with_data pre = false) ∧
    (ends_with_data pre = false ↔
      (ack_run (chime_call_audio_open seq0 sample0 muted) pre).data_ack_source = 0) ∧
    (ends_with_data pre = true →
      (ack_run (chime_call_audio_open seq0 sample0 muted)
        (pre ++ [AckEvent.data msg])).data_ack_mask % 2 = 1) := by
  have h0 := h
  have hf0 := hf
  rw [in_order_snoc] at h
  rw [carries_fields_snoc] at hf
  obtain ⟨hp, he⟩ := h
  obtain ⟨hfp, hfe⟩ := hf
  obtain ⟨i1, i2, i3⟩ := in_order_state_run seq0 sample0 muted pre hp hfp
  obtain ⟨j1, -, j3⟩ := in_order_state_run seq0 sample0 muted _ h0 hf0
  rw [last_seq_snoc] at j3
  simp only at he j3
  have hnw : msg.seq ≤ (ack_run (chime_call_audio_open seq0 sample0 muted) pre).data_next_seq ∨
      ((ack_run (chime_call_audio_open seq0 sample0 muted) pre).data_ack_source = 0 ∧
        (ack_run (chime_call_audio_open seq0 sample0 muted) pre).data_ack_mask = 0) := by
    by_cases hs : (ack_run (chime_call_audio_open seq0 sample0 muted) pre).data_ack_source = 0
    · exact Or.inr ⟨hs, i1 hs⟩
    · left
      have hd := ends_with_data_has_data pre (i2.mpr hs)
      rw [has_data_iff_last_seq] at hd
      cases hl : last_seq none pre with
      | none => rw [hl] at hd; cases hd
      | some q =>
        rw [hl] at he i3
        simp only at he i3
        omega
  obtain ⟨-, k2, -, -⟩ := data_msg_acks_no_walk _ msg hnw
  have hsrc : ends_with_data pre = false ↔
      (ack_run (chime_call_audio_open seq0 sample0 muted) pre).data_ack_source = 0 := by
    constructor
    · intro hx
      by_contra hne
      rw [i2.mpr hne] at hx
      cases hx
    · intro hs
      cases hx : ends_with_data pre with
      | false => rfl
      | true => exact absurd hs (i2.mp hx)
  refine ⟨j3, ?_, ?_, hsrc, ?_⟩
  · intro hd
    rw [j3]
    rw [has_data_iff_last_seq] at hd
    cases hl : last_seq none pre with
    | none => rw [hl] at hd; cases hd
    | some q =>
      rw [hl] at he i3
      simp only at he i3
      rw [i3, he]
  · rw [ack_run_snoc, ack_step_data _ msg hfe, k2]
    by_cases hs : (ack_run (chime_call_audio_open seq0 sample0 muted) pre).data_ack_source = 0
    · have hm := i1 hs
      have he2 : ends_with_data pre = false := hsrc.mpr hs
      simp [hs, hm, he2]
    · have he2 : ends_with_data pre = true := i2.mpr hs
      simp [hs, he2, lor_one_ne_zero]
  · intro hx
    have hs : (ack_run (chime_call_audio_open seq0 sample0 muted) pre).data_ack_source ≠ 0 :=
      i2.mp hx
    rw [ack_run_snoc, ack_step_data _ msg hfe, k2, if_pos hs]
    have hb : Nat.testBit
        (((ack_run (chime_call_audio_open seq0 sample0 muted) pre).data_ack_mask <<< 1) % 2 ^ 64
          ||| 1) 0 = true := by
      simp [Nat.testBit_or]
    rw [Nat.testBit_zero] at hb
    exact of_decide_eq_true hb

/-- C6 (amended), on three in-order messages with a flush after the first:
the cursor follows the last sequence number, and since the message before the
last was not flushed the bitmap is not zero and has its low bit set. -/
theorem in_order_delivery_cursor_and_bitmap_witness :
    in_order none ([AckEvent.data (data_msg 7 0 0 0 []), AckEvent.idle,
        AckEvent.data (data_msg 8 0 0 0 [])] ++ [AckEvent.data (data_msg 9 0 0 0 [])]) ∧
      carries_fields ([AckEvent.data (data_msg 7 0 0 0 []), AckEvent.idle,
        AckEvent.data (data_msg 8 0 0 0 [])] ++ [AckEvent.data (data_msg 9 0 0 0 [])]) ∧
      (ack_run (chime_call_audio_open 0 0 false)
        ([AckEvent.data (data_msg 7 0 0 0 []), AckEvent.idle,
          AckEvent.data (data_msg 8 0 0 0 [])] ++
          [AckEvent.data (data_msg 9 0 0 0 [])])).data_next_seq = 10 ∧
      (ack_run (chime_call_audio_open 0 0 false)
        ([AckEvent.data (data_msg 7 0 0 0 []), AckEvent.idle,
          AckEvent.data (data_msg 8 0 0 0 [])] ++
          [AckEvent.data (data_msg 9 0 0 0 [])])).data_ack_mask % 2 = 1 :=
  have hin : in_order none ([AckEvent.data (data_msg 7 0 0 0 []), AckEvent.idle,
      AckEvent.data (data_msg 8 0 0 0 [])] ++ [AckEvent.data (data_msg 9 0 0 0 [])]) := by
    simp [in_order, data_msg]
  have hf : carries_fields ([AckEvent.data (data_msg 7 0 0 0 []), AckEvent.idle,
      AckEvent.data (data_msg 8 0 0 0 [])] ++ [AckEvent.data (data_msg 9 0 0 0 [])]) := by
    intro m hm
    simp only [List.cons_append, List.nil_append, List.mem_cons, List.mem_singleton,
      AckEvent.data.injEq, reduceCtorEq, false_or, List.not_mem_nil, or_false] at hm
    rcases hm with h | h | h <;> subst h <;> exact ⟨rfl, rfl, rfl⟩
  ⟨hin, hf, (in_order_delivery_cursor_and_bitmap 0 0 false _ _ hin hf).1,
    (in_order_delivery_cursor_and_bitmap 0 0 false _ _ hin hf).2.2.2.2 (by decide)⟩

/-- C6 as stated fails: two in-order messages with no flush between them leave
the ack bitmap at 1, not 0. -/
theorem in_order_delivery_bitmap_nonzero :
    in_order none [AckEvent.data (data_msg 1 0 0 0 []), AckEvent.data (data_msg 2 0 0 0 [])] ∧
      (ack_run sample_session
        [AckEvent.data (data_msg 1 0 0 0 []), AckEvent.data (data_msg 2 0 0 0 [])]).data_ack_mask
        = 1 :=
  ⟨by simp [in_order, data_msg], by decide⟩

theorem do_send_ack_source (audio : ChimeCallAudio) :
    (do_send_ack audio).data_ack_source = audio.data_ack_source := by
  by_cases h : audio.data_ack_mask = 0 <;>
    simp [h, do_send_ack, chime_call_transport_send_packet]

theorem ack_walk_view (seq fuel : Nat) (audio : ChimeCallAudio) (pending : Bool) :
    ((ack_walk seq fuel (audio, pending)).1.data_next_seq,
      (ack_walk seq fuel (audio, pending)).1.data_ack_mask,
      (ack_walk seq fuel (audio, pending)).2) =
        view_walk seq fuel (audio.data_next_seq, audio.data_ack_mask, pending) ∧
    (ack_walk seq fuel (audio, pending)).1.data_ack_source = audio.data_ack_source := by
  induction fuel generalizing audio pending with
  | zero => simp [ack_walk, view_walk]
  | succ n ih =>
    simp only [ack_walk, view_walk]
    by_cases h1 : seq > audio.data_next_seq
    · by_cases h2 : audio.data_ack_mask &&& 0x8000000000000000 ≠ 0
      · rw [if_pos h1, if_pos h1, if_pos h2, if_pos h2]
        simp only [do_send_ack_mask, do_send_ack_next_seq, do_send_ack_source, and_self]
      · rw [if_pos h1, if_pos h1, if_neg h2, if_neg h2]
        have := ih { audio with data_next_seq := audio.data_next_seq + 1,
                                data_ack_mask := if pending = true
                                  then (audio.data_ack_mask <<< 1) % 2 ^ 64 ||| 1
                                  else (audio.data_ack_mask <<< 1) % 2 ^ 64 } false
        simpa using this
    · rw [if_neg h1, if_neg h1]
      exact ⟨rfl, rfl⟩

theorem schedule_idle_send_ack_view (audio : ChimeCallAudio) :
    ack_view (schedule_idle_send_ack audio) =
      (audio.data_next_seq, audio.data_ack_mask, true) := by
  by_cases h : audio.data_ack_source = 0
  · simp [schedule_idle_send_ack, ack_view, g_source_add, h]
  · simp [schedule_idle_send_ack, ack_view, h]

/-- The acknowledgement fields after a Data message depend on the fields
before and on the sequence number only. -/
theorem data_msg_acks_view (audio : ChimeCallAudio) (msg : DataMessage) :
    ack_view (data_msg_acks audio msg) = view_data (ack_view audio) msg.seq := by
  obtain ⟨hv, -⟩ := ack_walk_view msg.seq (msg.seq - audio.data_next_seq) audio
    (decide (audio.data_ack_source ≠ 0))
  simp only [Prod.ext_iff] at hv
  obtain ⟨-, hv2, hv3⟩ := hv
  unfold data_msg_acks
  simp only []
  rw [schedule_idle_send_ack_view]
  unfold view_data ack_view
  by_cases hc : (decide (audio.data_ack_source ≠ 0) || decide (audio.data_ack_mask ≠ 0)) = true
  · rw [if_pos hc, if_pos hc, hv2, hv3]
  · rw [if_neg hc, if_neg hc]

theorem ack_step_view (audio : ChimeCallAudio) (e : AckEvent) :
    ack_view (ack_step audio e) = view_step (ack_view audio) e := by
  cases e with
  | data msg =>
    simp only [ack_step, view_step]
    split
    · rfl
    · exact data_msg_acks_view audio msg
  | idle =>
    by_cases hs : audio.data_ack_source = 0
    · simp [ack_step, view_step, ack_view, hs]
    · simp [ack_step, view_step, ack_view, hs, idle_send_ack, do_send_ack_mask,
        do_send_ack_next_seq]

theorem ack_run_view (audio : ChimeCallAudio) (evs : List AckEvent) :
    ack_view (ack_run audio evs) = evs.foldl view_step (ack_view audio) := by
  induction evs generalizing audio with
  | nil => rfl
  | cons e es ih =>
    simp only [ack_run, List.foldl_cons] at ih ⊢
    rw [ih, ack_step_view]

theorem ack_view_open (seq0 sample0 : Nat) (muted : Bool) :
    ack_view (chime_call_audio_open seq0 sample0 muted) = (0, 0, false) := by
  simp [ack_view, chime_call_audio_open, chime_call_audio_set_state,
    chime_call_transport_connect]

theorem do_send_ack_last_ack (audio : ChimeCallAudio) :
    ((do_send_ack audio).out.getLast?.map fun o =>
      match o with
      | Output.sent_data pkt => pkt.ack
      | _ => 0) = some ((audio.data_next_seq + 2 ^ 32 - 1) % 2 ^ 32) := by
  by_cases h : audio.data_ack_mask = 0 <;>
    simp [h, do_send_ack, chime_call_transport_send_packet]

/-- C8. Ack flush: `do_send_ack` emits exactly one Data packet, whose ack
field is the cursor minus one (in 32-bit arithmetic: 2^32 - 1 for a cursor of
zero); the packet carries the ack bitmap exactly when the bitmap is non-zero,
and then carries the current bitmap; afterwards the bitmap is zero and the
cursor is unchanged. -/
theorem do_send_ack_emits (audio : ChimeCallAudio) :
    ∃ pkt : DataMessage,
      (do_send_ack audio).out = audio.out ++ [Output.sent_data pkt] ∧
      pkt.has_ack = true ∧
      pkt.ack = (audio.data_next_seq + 2 ^ 32 - 1) % 2 ^ 32 ∧
      (0 < audio.data_next_seq → audio.data_next_seq < 2 ^ 32 →
        pkt.ack = audio.data_next_seq - 1) ∧
      (pkt.has_ack_mask = true ↔ audio.data_ack_mask ≠ 0) ∧
      (audio.data_ack_mask ≠ 0 → pkt.ack_mask = audio.data_ack_mask) ∧
      (do_send_ack audio).data_ack_mask = 0 ∧
      (do_send_ack audio).data_next_seq = audio.data_next_seq := by
  have hw : 0 < audio.data_next_seq → audio.data_next_seq < 2 ^ 32 →
      (audio.data_next_seq + 2 ^ 32 - 1) % 2 ^ 32 = audio.data_next_seq - 1 := by
    intro h1 h2
    omega
  by_cases h : audio.data_ack_mask = 0
  · refine ⟨{ data_message__init with
        ack := (audio.data_next_seq + 2 ^ 32 - 1) % 2 ^ 32, has_ack := true }, ?_, ?_⟩
    · simp only [do_send_ack, h, ne_eq, not_true_eq_false, ↓reduceIte,
        chime_call_transport_send_packet]
    · simp [data_message__init, h, do_send_ack, chime_call_transport_send_packet]
      exact hw
  · refine ⟨{ data_message__init with
        ack := (audio.data_next_seq + 2 ^ 32 - 1) % 2 ^ 32, has_ack := true,
        has_ack_mask := true, ack_mask := audio.data_ack_mask }, ?_, ?_⟩
    · simp only [do_send_ack, h, ne_eq, not_false_eq_true, ↓reduceIte,
        chime_call_transport_send_packet]
    · simp [data_message__init, h, do_send_ack, chime_call_transport_send_packet]
      exact hw

/-- C7 (amended). Data messages that carry the `seq`, `msg_id` and `msg_len`
fields, with sequence numbers 1, 2 and 4, delivered to a freshly opened
session, with the deferred flush running or not after the first (`f1`) and
after the second (`f2`): after the message with sequence 4 the cursor is 5, so
the ack that would be flushed is 4; bit 0 of the bitmap, the one below the
acked sequence and hence that of the missing sequence 3, is clear; the bits
that are set stand for the received sequences 2 and 1 that were still owed an
ack (6 with no flush, 2 with a flush after the first message only, 0 when the
flush ran after the second). -/
theorem gap_delivery_ack_state (seq0 sample0 : Nat) (muted : Bool)
    (m1 m2 m4 : DataMessage) (f1 f2 : Bool) :
    (ack_run (chime_call_audio_open seq0 sample0 muted)
      ([AckEvent.data { m1 with seq := 1, has_seq := true, has_msg_id := true,
                                has_msg_len := true }] ++
        (if f1 then [AckEvent.idle] else []) ++
        [AckEvent.data { m2 with seq := 2, has_seq := true, has_msg_id := true,
                                 has_msg_len := true }] ++
        (if f2 then [AckEvent.idle] else []) ++
        [AckEvent.data { m4 with seq := 4, has_seq := true, has_msg_id := true,
                                 has_msg_len := true }])).data_next_seq = 5 ∧
    (ack_run (chime_call_audio_open seq0 sample0 muted)
      ([AckEvent.data { m1 with seq := 1, has_seq := true, has_msg_id := true,
                                has_msg_len := true }] ++
        (if f1 then [AckEvent.idle] else []) ++
        [AckEvent.data { m2 with seq := 2, has_seq := true, has_msg_id := true,
                                 has_msg_len := true }] ++
        (if f2 then [AckEvent.idle] else []) ++
        [AckEvent.data { m4 with seq := 4, has_seq := true, has_msg_id := true,
                                 has_msg_len := true }])).data_ack_mask =
      (if f2 then 0 else if f1 then 2 else 6) ∧
    (ack_run (chime_call_audio_open seq0 sample0 muted)
      ([AckEvent.data { m1 with seq := 1, has_seq := true, has_msg_id := true,
                                has_msg_len := true }] ++
        (if f1 then [AckEvent.idle] else []) ++
        [AckEvent.data { m2 with seq := 2, has_seq := true, has_msg_id := true,
                                 has_msg_len := true }] ++
        (if f2 then [AckEvent.idle] else []) ++
        [AckEvent.data { m4 with seq := 4, has_seq := true, has_msg_id := true,
                                 has_msg_len := true }])).data_ack_mask &&& 1 = 0 ∧
    ((do_send_ack (ack_run (chime_call_audio_open seq0 sample0 muted)
      ([AckEvent.data { m1 with seq := 1, has_seq := true, has_msg_id := true,
                                has_msg_len := true }] ++
        (if f1 then [AckEvent.idle] else []) ++
        [AckEvent.data { m2 with seq := 2, has_seq := true, has_msg_id := true,
                                 has_msg_len := true }] ++
        (if f2 then [AckEvent.idle] else []) ++
        [AckEvent.data { m4 with seq := 4, has_seq := true, has_msg_id := true,
                                 has_msg_len := true }]))).out.getLast?.map
      fun o => match o with
        | Output.sent_data pkt => pkt.ack
        | _ => 0) = some 4 := by
  have hv : ∀ evs, ack_view (ack_run (chime_call_audio_open seq0 sample0 muted) evs) =
      evs.foldl view_step (0, 0, false) := fun evs => by rw [ack_run_view, ack_view_open]
  have hv1 : ∀ evs, (ack_run (chime_call_audio_open seq0 sample0 muted) evs).data_next_seq =
      (evs.foldl view_step (0, 0, false)).1 := fun evs => congrArg Prod.fst (hv evs)
  have hv2 : ∀ evs, (ack_run (chime_call_audio_open seq0 sample0 muted) evs).data_ack_mask =
      (evs.foldl view_step (0, 0, false)).2.1 := fun evs => congrArg (fun v => v.2.1) (hv evs)
  have hl := fun evs =>
    do_send_ack_last_ack (ack_run (chime_call_audio_open seq0 sample0 muted) evs)
  rw [hl, hv1, hv2]
  cases f1 <;> cases f2 <;>
    simp only [List.foldl, view_step, Bool.false_eq_true, ↓reduceIte, List.cons_append,
      List.nil_append, List.append_nil, Bool.not_true, Bool.or_self] <;>
    decide

/-- C7 as stated fails: after sequences 1, 2, 4 (no flush in between) the
cursor minus one is 4, not 3, and the bitmap is 6, which has two bits set. -/
theorem gap_delivery_ack_not_three :
    (ack_run sample_session [AckEvent.data (data_msg 1 0 0 0 []),
        AckEvent.data (data_msg 2 0 0 0 []),
        AckEvent.data (data_msg 4 0 0 0 [])]).data_next_seq - 1 = 4 ∧
      (ack_run sample_session [AckEvent.data (data_msg 1 0 0 0 []),
        AckEvent.data (data_msg 2 0 0 0 []),
        AckEvent.data (data_msg 4 0 0 0 [])]).data_ack_mask = 6 := by
  decide

/-- C9, at the failing input.  Sequences 1, 65, 66 with no flush in between:
after 65 the bitmap is 2^63 (the bit of sequence 1); handling 66 does not enter
the walk, the final shift drops that bit, and no ack was sent at any point. -/
theorem ack_mask_top_bit_dropped :
    (ack_run sample_session [AckEvent.data (data_msg 1 0 0 0 []),
        AckEvent.data (data_msg 65 0 0 0 [])]).data_ack_mask = 2 ^ 63 ∧
      (ack_run sample_session [AckEvent.data (data_msg 1 0 0 0 []),
        AckEvent.data (data_msg 65 0 0 0 []),
        AckEvent.data (data_msg 66 0 0 0 [])]).data_ack_mask = 1 ∧
      (ack_run sample_session [AckEvent.data (data_msg 1 0 0 0 []),
        AckEvent.data (data_msg 65 0 0 0 []),
        AckEvent.data (data_msg 66 0 0 0 [])]).out = [] := by
  decide

/-! ## Fragment lists -/

theorem absorb_loop_two (nf : message_frag) (nf_next : List message_frag) (e : Nat) :
    absorb_loop nf nf_next absorb_fuel (e, nf :: nf_next) =
      if nf.start ≤ e then
        if nf_next ≠ [] ∧ nf.start ≤ nf.end_ then none else some (nf.end_, nf_next)
      else some (e, nf :: nf_next) := by
  simp only [absorb_fuel, absorb_loop, ne_eq, reduceCtorEq, not_false_eq_true, true_and]

/-- A walk that returns keeps the merge invariant, leaves a non-empty list,
and keeps every lower bound on the starts and upper bound on the ends that
the new range respects. -/
theorem insert_frag_walk_merged (start end_ : Nat) (hse : start ≤ end_) :
    ∀ (l l' : List message_frag), frags_merged l →
      insert_frag_walk start end_ l = some l' →
      frags_merged l' ∧ l' ≠ [] ∧
      (∀ b, b < start → (∀ g ∈ l, b < g.start) → ∀ g ∈ l', b < g.start) ∧
      (∀ B, end_ ≤ B → (∀ g ∈ l, g.end_ ≤ B) → ∀ g ∈ l', g.end_ ≤ B) := by
  intro l
  induction l with
  | nil =>
    intro l' _ h
    simp only [insert_frag_walk, Option.some.injEq] at h
    subst h
    refine ⟨⟨by simp, by simpa using hse⟩, by simp, ?_, ?_⟩
    · intro b hb _ g hg
      simp only [List.mem_singleton] at hg
      subst hg
      exact hb
    · intro B hB _ g hg
      simp only [List.mem_singleton] at hg
      subst hg
      exact hB
  | cons f rest ih =>
    intro l' hm h
    obtain ⟨hp, hle⟩ := hm
    rw [List.pairwise_cons] at hp
    obtain ⟨hf, hprest⟩ := hp
    have hfle : f.start ≤ f.end_ := hle f (List.mem_cons_self _ _)
    have hrle : ∀ g ∈ rest, g.start ≤ g.end_ := fun g hg => hle g (List.mem_cons_of_mem _ hg)
    simp only [insert_frag_walk] at h
    by_cases c1 : end_ < f.start
    · -- the new fragment goes before `f`
      simp only [c1, ↓reduceIte, Option.some.injEq] at h
      subst h
      refine ⟨⟨?_, ?_⟩, by simp, ?_, ?_⟩
      · rw [List.pairwise_cons, List.pairwise_cons]
        refine ⟨?_, hf, hprest⟩
        intro g hg
        rcases List.mem_cons.mp hg with hg | hg
        · subst hg; exact c1
        · have := hf g hg
          show end_ < g.start
          omega
      · intro g hg
        rcases List.mem_cons.mp hg with hg | hg
        · subst hg; exact hse
        · exact hle g hg
      · intro b hb hl g hg
        rcases List.mem_cons.mp hg with hg | hg
        · subst hg; exact hb
        · exact hl g hg
      · intro B hB hl g hg
        rcases List.mem_cons.mp hg with hg | hg
        · subst hg; exact hB
        · exact hl g hg
    · simp only [c1, ↓reduceIte] at h
      by_cases c2 : start ≤ f.end_
      · simp only [c2, ↓reduceIte] at h
        by_cases c3 : end_ > f.end_
        · simp only [c3, ↓reduceIte] at h
          cases rest with
          | nil =>
            simp only [Option.some.injEq] at h
            subst h
            refine ⟨⟨by simp, ?_⟩, by simp, ?_, ?_⟩
            · intro g hg
              simp only [List.mem_singleton] at hg
              subst hg
              show (if start < f.start then start else f.start) ≤ end_
              split <;> omega
            · intro b hb hl g hg
              simp only [List.mem_singleton] at hg
              subst hg
              have := hl f (List.mem_cons_self _ _)
              show b < (if start < f.start then start else f.start)
              split <;> omega
            · intro B hB _ g hg
              simp only [List.mem_singleton] at hg
              subst hg
              exact hB
          | cons nf nf_next =>
            simp only [absorb_loop_two] at h
            have hnf : f.end_ < nf.start := hf nf (List.mem_cons_self _ _)
            have hnfle : nf.start ≤ nf.end_ := hrle nf (List.mem_cons_self _ _)
            by_cases c4 : nf.start ≤ end_
            · simp only [c4, ↓reduceIte, hnfle, and_true] at h
              by_cases c5 : nf_next = []
              · subst c5
                simp only [ne_eq, not_true_eq_false, ↓reduceIte, Option.map_some',
                  Option.some.injEq] at h
                subst h
                refine ⟨⟨by simp, ?_⟩, by simp, ?_, ?_⟩
                · intro g hg
                  simp only [List.mem_singleton] at hg
                  subst hg
                  show (if start < f.start then start else f.start) ≤ nf.end_
                  split <;> omega
                · intro b hb hl g hg
                  simp only [List.mem_singleton] at hg
                  subst hg
                  have := hl f (List.mem_cons_self _ _)
                  show b < (if start < f.start then start else f.start)
                  split <;> omega
                · intro B _ hl g hg
                  simp only [List.mem_singleton] at hg
                  subst hg
                  exact hl nf (List.mem_cons_of_mem _ (List.mem_cons_self _ _))
              · simp [c5] at h
            · simp only [c4, ↓reduceIte, Option.map_some', Option.some.injEq] at h
              subst h
              refine ⟨⟨?_, ?_⟩, by simp, ?_, ?_⟩
              · rw [List.pairwise_cons]
                refine ⟨?_, hprest⟩
                intro g hg
                show end_ < g.start
                rcases List.mem_cons.mp hg with hg | hg
                · subst hg; omega
                · have h1 : nf.end_ < g.start := (List.pairwise_cons.mp hprest).1 g hg
                  omega
              · intro g hg
                rcases List.mem_cons.mp hg with hg | hg
                · subst hg
                  show (if start < f.start then start else f.start) ≤ end_
                  split <;> omega
                · exact hrle g hg
              · intro b hb hl g hg
                rcases List.mem_cons.mp hg with hg | hg
                · subst hg
                  have := hl f (List.mem_cons_self _ _)
                  show b < (if start < f.start then start else f.start)
                  split <;> omega
                · exact hl g (List.mem_cons_of_mem _ hg)
              · intro B hB hl g hg
                rcases List.mem_cons.mp hg with hg | hg
                · subst hg; exact hB
                · exact hl g (List.mem_cons_of_mem _ hg)
        · simp only [c3, ↓reduceIte, Option.some.injEq] at h
          subst h
          refine ⟨⟨?_, ?_⟩, by simp, ?_, ?_⟩
          · rw [List.pairwise_cons]
            exact ⟨hf, hprest⟩
          · intro g hg
            rcases List.mem_cons.mp hg with hg | hg
            · subst hg
              show (if start < f.start then start else f.start) ≤ f.end_
              split <;> omega
            · exact hrle g hg
          · intro b hb hl g hg
            rcases List.mem_cons.mp hg with hg | hg
            · subst hg
              have := hl f (List.mem_cons_self _ _)
              show b < (if start < f.start then start else f.start)
              split <;> omega
            · exact hl g (List.mem_cons_of_mem _ hg)
          · intro B _ hl g hg
            rcases List.mem_cons.mp hg with hg | hg
            · subst hg
              exact hl f (List.mem_cons_self _ _)
            · exact hl g (List.mem_cons_of_mem _ hg)
      · -- the new fragment lives after `f`
        simp only [c2, ↓reduceIte] at h
        cases hw : insert_frag_walk start end_ rest with
        | none => simp [hw] at h
        | some l1 =>
          simp only [hw, Option.map_some', Option.some.injEq] at h
          subst h
          obtain ⟨⟨q1, q2⟩, _, q4, q5⟩ := ih l1 ⟨hprest, hrle⟩ hw
          refine ⟨⟨?_, ?_⟩, by simp, ?_, ?_⟩
          · rw [List.pairwise_cons]
            exact ⟨q4 f.end_ (by omega) hf, q1⟩
          · intro g hg
            rcases List.mem_cons.mp hg with hg | hg
            · subst hg; exact hfle
            · exact q2 g hg
          · intro b hb hl g hg
            rcases List.mem_cons.mp hg with hg | hg
            · subst hg; exact hl g (List.mem_cons_self _ _)
            · exact q4 b hb (fun x hx => hl x (List.mem_cons_of_mem _ hx)) g hg
          · intro B hB hl g hg
            rcases List.mem_cons.mp hg with hg | hg
            · subst hg; exact hl g (List.mem_cons_self _ _)
            · exact q5 B hB (fun x hx => hl x (List.mem_cons_of_mem _ hx)) g hg

theorem insert_frags_merged (ops : List (Nat × Nat)) :
    ∀ (m0 m : message_buf), frags_merged m0.frags → (∀ r ∈ ops, r.1 ≤ r.2) →
      insert_frags m0 ops = some m → frags_merged m.frags := by
  induction ops with
  | nil =>
    intro m0 m h0 _ h
    simp only [insert_frags, Option.some.injEq] at h
    subst h
    exact h0
  | cons r rest ih =>
    intro m0 m h0 hr h
    simp only [insert_frags, insert_frag] at h
    cases hw : insert_frag_walk r.1 r.2 m0.frags with
    | none => simp [hw] at h
    | some l1 =>
      simp only [hw, Option.map_some'] at h
      have h1 := (insert_frag_walk_merged r.1 r.2 (hr r (List.mem_cons_self _ _))
        m0.frags l1 h0 hw).1
      exact ih _ m h1 (fun x hx => hr x (List.mem_cons_of_mem _ hx)) h

theorem frag_covered_nil (i : Nat) : frag_covered [] i ↔ False := by
  simp [frag_covered]

theorem frag_covered_cons (f : message_frag) (l : List message_frag) (i : Nat) :
    frag_covered (f :: l) i ↔ (f.start ≤ i ∧ i < f.end_) ∨ frag_covered l i := by
  simp [frag_covered]

/-- Under `cascade_ok` the walk returns, and the new list covers what the old
one covered and the new range. -/
theorem insert_frag_walk_covered (start end_ : Nat) :
    ∀ l : List message_frag, frags_merged l → cascade_ok start end_ l →
      ∃ l', insert_frag_walk start end_ l = some l' ∧
        ∀ i, frag_covered l' i ↔ (frag_covered l i ∨ (start ≤ i ∧ i < end_)) := by
  intro l
  induction l with
  | nil =>
    intro _ _
    refine ⟨_, rfl, ?_⟩
    intro i
    simp only [frag_covered_cons, frag_covered_nil]
    tauto
  | cons f rest ih =>
    intro hm hc
    obtain ⟨hp, hle⟩ := hm
    rw [List.pairwise_cons] at hp
    obtain ⟨hf, hprest⟩ := hp
    have hfle : f.start ≤ f.end_ := hle f (List.mem_cons_self _ _)
    have hrle : ∀ g ∈ rest, g.start ≤ g.end_ := fun g hg => hle g (List.mem_cons_of_mem _ hg)
    obtain ⟨s, hs, hs2⟩ : ∃ s, (if start < f.start then start else f.start) = s ∧
        (s = start ∧ start ≤ f.start ∨ s = f.start ∧ f.start ≤ start) := by
      refine ⟨_, rfl, ?_⟩
      split <;> omega
    simp only [insert_frag_walk, hs]
    simp only [cascade_ok] at hc
    by_cases c1 : end_ < f.start
    · simp only [c1, ↓reduceIte]
      refine ⟨_, rfl, ?_⟩
      intro i
      simp only [frag_covered_cons]
      tauto
    · simp only [c1, ↓reduceIte] at hc ⊢
      by_cases c2 : start ≤ f.end_
      · simp only [c2, ↓reduceIte] at hc ⊢
        by_cases c3 : end_ > f.end_
        · simp only [c3, ↓reduceIte]
          cases rest with
          | nil =>
            refine ⟨_, rfl, ?_⟩
            intro i
            simp only [frag_covered_cons, frag_covered_nil, or_false]
            omega
          | cons nf nf_next =>
            simp only at hc
            have hnf : f.end_ < nf.start := hf nf (List.mem_cons_self _ _)
            have hnfle : nf.start ≤ nf.end_ := hrle nf (List.mem_cons_self _ _)
            simp only [absorb_loop_two]
            by_cases c4 : nf.start ≤ end_
            · obtain ⟨e1, e2⟩ := hc c4
              subst e1
              simp only [c4, ↓reduceIte, ne_eq, not_true_eq_false, false_and, Option.map_some']
              refine ⟨_, rfl, ?_⟩
              intro i
              simp only [frag_covered_cons, frag_covered_nil, or_false]
              omega
            · simp only [c4, ↓reduceIte, Option.map_some']
              refine ⟨_, rfl, ?_⟩
              intro i
              simp only [frag_covered_cons]
              by_cases hr : frag_covered nf_next i
              · simp only [hr, or_true, true_or]
              · simp only [hr, or_false]
                omega
        · simp only [c3, ↓reduceIte]
          refine ⟨_, rfl, ?_⟩
          intro i
          simp only [frag_covered_cons]
          by_cases hr : frag_covered rest i
          · simp only [hr, or_true, true_or]
          · simp only [hr, or_false]
            omega
      · simp only [c2, ↓reduceIte] at hc ⊢
        obtain ⟨l1, h1, h2⟩ := ih ⟨hprest, hrle⟩ hc
        refine ⟨f :: l1, by simp [h1], ?_⟩
        intro i
        simp only [frag_covered_cons, h2]
        tauto

/-- On a merged, non-empty list whose fragments end within the message, the
test at `done:` succeeds exactly when every byte of the message is covered. -/
theorem frags_complete_iff (len : Nat) (l : List message_frag) (hm : frags_merged l)
    (hne : l ≠ []) (hub : ∀ f ∈ l, f.end_ ≤ len) :
    frags_complete len l = true ↔ ∀ i, i < len → frag_covered l i := by
  cases l with
  | nil => exact absurd rfl hne
  | cons f rest =>
    obtain ⟨hp, hle⟩ := hm
    rw [List.pairwise_cons] at hp
    obtain ⟨hf, -⟩ := hp
    have hfle : f.start ≤ f.end_ := hle f (List.mem_cons_self _ _)
    have hfub : f.end_ ≤ len := hub f (List.mem_cons_self _ _)
    simp only [frags_complete, Bool.and_eq_true, beq_iff_eq]
    constructor
    · rintro ⟨h1, h2⟩ i hi
      rw [frag_covered_cons]
      left
      omega
    · intro h
      have hnot : ∀ i, f.end_ ≤ i → ¬ frag_covered rest i → ¬ (i < len) := by
        intro i hi hr hlt
        have := h i hlt
        rw [frag_covered_cons] at this
        rcases this with h3 | h3
        · omega
        · exact hr h3
      have hrest : ∀ i, i ≤ f.end_ → ¬ frag_covered rest i := by
        rintro i hi ⟨g, hg, hg1, hg2⟩
        have := hf g hg
        omega
      have hend : f.end_ = len := by
        by_contra hne2
        exact hnot f.end_ (Nat.le_refl _) (hrest _ (Nat.le_refl _)) (by omega)
      refine ⟨?_, hend⟩
      by_contra h0
      have hlen : 0 < len := by omega
      have := h 0 hlen
      rw [frag_covered_cons] at this
      rcases this with h3 | h3
      · omega
      · exact hrest 0 (Nat.zero_le _) h3

/-- C4, at the failing input, and where the invariant does hold.  From the
empty list the insertions [0, 2), [4, 6), [8, 10) leave the merged list
[0,2], [4,6], [8,10]; the next call, `insert_frag(m, 2, 4)`, touches [0,2] and
reaches [4,6], which has a successor: the cascading merge absorbs [4,6] and
then tests and releases that same fragment again, so the call has no result
and there is no fragment list to speak of.  Every call whose cascading merge
is sound (`cascade_ok`: the fragment it reaches is the last of the list and
ends at or after the new range) on a merged list returns, and returns a merged
list: each fragment ends strictly before every later one starts. -/
theorem insert_frag_merge_run_fails :
    insert_frags (new_msgbuf 1 10) [(0, 2), (4, 6), (8, 10)] =
      some { new_msgbuf 1 10 with frags := [⟨0, 2⟩, ⟨4, 6⟩, ⟨8, 10⟩] } ∧
    frags_merged [⟨0, 2⟩, ⟨4, 6⟩, ⟨8, 10⟩] ∧
    insert_frag { new_msgbuf 1 10 with frags := [⟨0, 2⟩, ⟨4, 6⟩, ⟨8, 10⟩] } 2 4 = none ∧
    insert_frags (new_msgbuf 1 10) [(0, 2), (4, 6), (8, 10), (2, 4)] = none ∧
    (∀ (m : message_buf) (start end_ : Nat), frags_merged m.frags → start ≤ end_ →
      cascade_ok start end_ m.frags →
      ∃ r m', insert_frag m start end_ = some (r, m') ∧ frags_merged m'.frags ∧
        m'.frags.Pairwise (fun f g => f.start < g.start) ∧
        m'.frags.Chain' (fun f g => f.end_ < g.start)) := by
  refine ⟨by decide, by unfold frags_merged; decide, by decide, by decide, ?_⟩
  intro m start end_ hm hse hc
  obtain ⟨l', h1, -⟩ := insert_frag_walk_covered start end_ m.frags hm hc
  have h2 := (insert_frag_walk_merged start end_ hse m.frags l' hm h1).1
  refine ⟨frags_complete m.len l', { m with frags := l' }, ?_, h2, ?_, List.Pairwise.chain' h2.1⟩
  · simp only [insert_frag, h1, Option.map_some']
  · refine List.Pairwise.imp_of_mem ?_ h2.1
    intro f g hf _ hfg
    have := h2.2 f hf
    omega

/-! ## Reassembly of one message -/

theorem memcpy_at_length (buf : List Nat) (off : Nat) (data : List Nat)
    (h : off + data.length ≤ buf.length) : (memcpy_at buf off data).length = buf.length := by
  simp only [memcpy_at, List.length_append, List.length_take, List.length_drop]
  omega

theorem memcpy_at_getD (buf : List Nat) (off : Nat) (data : List Nat)
    (h : off + data.length ≤ buf.length) (i : Nat) :
    (memcpy_at buf off data).getD i 0 =
      if off ≤ i ∧ i < off + data.length then data.getD (i - off) 0 else buf.getD i 0 := by
  have htl : (buf.take off).length = off := by
    rw [List.length_take]; omega
  simp only [memcpy_at, List.getD_eq_getElem?_getD]
  by_cases h1 : i < off
  · have hc : ¬ (off ≤ i ∧ i < off + data.length) := by omega
    rw [if_neg hc, List.append_assoc, List.getElem?_append_left (by omega),
      List.getElem?_take_of_lt h1]
  · by_cases h2 : i < off + data.length
    · have hc : off ≤ i ∧ i < off + data.length := by omega
      rw [if_pos hc, List.append_assoc, List.getElem?_append_right (by omega),
        List.getElem?_append_left (by omega), htl]
    · have hc : ¬ (off ≤ i ∧ i < off + data.length) := by omega
      rw [if_neg hc, List.getElem?_append_right (by simp only [List.length_append]; omega),
        List.getElem?_drop]
      congr 2
      simp only [List.length_append]
      omega

theorem msgbuf_ok_new (msg_id : Int) (len : Nat) : msgbuf_ok (new_msgbuf msg_id len) := by
  refine ⟨⟨List.Pairwise.nil, ?_⟩, ?_, ?_⟩
  · intro f hf; simp [new_msgbuf] at hf
  · intro f hf; simp [new_msgbuf] at hf
  · simp [new_msgbuf]

/-- One in-bounds payload stored into a well-formed message, when the cascade
is sound: the call returns, the message stays well formed, the fragments cover
what they covered and the new range, the flag tells whether every byte is
covered, and the buffer holds the payload over what it held. -/
theorem store_frag_spec (m : message_buf) (off : Nat) (data : List Nat) (hm : msgbuf_ok m)
    (hb : off + data.length ≤ m.len) (hc : cascade_ok off (off + data.length) m.frags) :
    ∃ r m1, store_frag m off data = some (r, m1) ∧ msgbuf_ok m1 ∧ m1.len = m.len ∧
      m1.msg_id = m.msg_id ∧
      (∀ i, frag_covered m1.frags i ↔ (frag_covered m.frags i ∨ (off ≤ i ∧ i < off + data.length))) ∧
      (r = true ↔ ∀ i, i < m.len → frag_covered m1.frags i) ∧
      (∀ i, m1.buf.getD i 0 =
        if off ≤ i ∧ i < off + data.length then data.getD (i - off) 0 else m.buf.getD i 0) := by
  obtain ⟨h1, h2, h3⟩ := hm
  obtain ⟨l', hw, hcov⟩ := insert_frag_walk_covered off (off + data.length) m.frags h1 hc
  obtain ⟨q1, q2, -, q4⟩ :=
    insert_frag_walk_merged off (off + data.length) (Nat.le_add_right _ _) m.frags l' h1 hw
  have hub : ∀ f ∈ l', f.end_ ≤ m.len := q4 m.len hb h2
  refine ⟨frags_complete m.len l',
    { m with buf := memcpy_at m.buf off data, frags := l' }, ?_, ?_, rfl, rfl, hcov, ?_, ?_⟩
  · simp [store_frag, insert_frag, hw]
  · exact ⟨q1, hub, by
      show (memcpy_at m.buf off data).length = m.len
      rw [memcpy_at_length _ _ _ (by omega), h3]⟩
  · exact frags_complete_iff m.len l' q1 q2 hub
  · intro i
    exact memcpy_at_getD m.buf off data (by omega) i

theorem overlay_cons (op : Nat × List Nat) (rest : List (Nat × List Nat)) (i b : Nat) :
    overlay (op :: rest) i b =
      overlay rest i (if op.1 ≤ i ∧ i < op.1 + op.2.length then op.2.getD (i - op.1) 0 else b) := by
  simp [overlay]

theorem overlay_snoc (l : List (Nat × List Nat)) (op : Nat × List Nat) (i b : Nat) :
    overlay (l ++ [op]) i b =
      if op.1 ≤ i ∧ i < op.1 + op.2.length then op.2.getD (i - op.1) 0 else overlay l i b := by
  simp [overlay, List.foldl_append]

theorem range_covered_cons (op : Nat × List Nat) (rest : List (Nat × List Nat)) (i : Nat) :
    range_covered (op :: rest) i ↔
      (op.1 ≤ i ∧ i < op.1 + op.2.length) ∨ range_covered rest i := by
  simp [range_covered]

theorem range_covered_snoc (l : List (Nat × List Nat)) (op : Nat × List Nat) (i : Nat) :
    range_covered (l ++ [op]) i ↔
      range_covered l i ∨ (op.1 ≤ i ∧ i < op.1 + op.2.length) := by
  simp only [range_covered, List.mem_append, List.mem_singleton]
  constructor
  · rintro ⟨x, hx | hx, h⟩
    · exact Or.inl ⟨x, hx, h⟩
    · subst hx; exact Or.inr h
  · rintro (⟨x, hx, h⟩ | h)
    · exact ⟨x, Or.inl hx, h⟩
    · exact ⟨op, Or.inr rfl, h⟩

/-- The state in which the insertion number `k` of a sequence finds the
message, when every insertion before it met `cascade_ok`. -/
theorem store_all_take (ops : List (Nat × List Nat)) :
    ∀ (m0 : message_buf) (k : Nat) (op : Nat × List Nat), msgbuf_ok m0 →
      (∀ x ∈ ops, x.1 + x.2.length ≤ m0.len) → cascade_ok_run m0 ops → ops[k]? = some op →
      ∃ flags m, store_all m0 (ops.take k) = some (flags, m) ∧ msgbuf_ok m ∧ m.len = m0.len ∧
        m.msg_id = m0.msg_id ∧
        (∀ i, frag_covered m.frags i ↔ (frag_covered m0.frags i ∨ range_covered (ops.take k) i)) ∧
        (∀ i, m.buf.getD i 0 = overlay (ops.take k) i (m0.buf.getD i 0)) ∧
        cascade_ok op.1 (op.1 + op.2.length) m.frags := by
  induction ops with
  | nil => intro m0 k op _ _ _ h; simp at h
  | cons x rest ih =>
    intro m0 k op hm hb hc hk
    obtain ⟨hc1, hc2⟩ := hc
    cases k with
    | zero =>
      simp only [List.getElem?_cons_zero, Option.some.injEq] at hk
      subst hk
      refine ⟨[], m0, rfl, hm, rfl, rfl, ?_, ?_, hc1⟩
      · intro i; simp [range_covered]
      · intro i; simp [overlay]
    | succ k =>
      simp only [List.getElem?_cons_succ] at hk
      obtain ⟨r, m1, e1, e2, e3, e4, e5, -, e7⟩ :=
        store_frag_spec m0 x.1 x.2 hm (hb x (List.mem_cons_self _ _)) hc1
      simp only [e1] at hc2
      obtain ⟨flags, m, f1, f2, f3, f4, f5, f6, f7⟩ := ih m1 k op e2
        (fun y hy => by rw [e3]; exact hb y (List.mem_cons_of_mem _ hy)) hc2 hk
      refine ⟨r :: flags, m, ?_, f2, by rw [f3, e3], by rw [f4, e4], ?_, ?_, f7⟩
      · simp [store_all, e1, f1]
      · intro i
        rw [f5, e5, List.take_succ_cons, range_covered_cons]
        tauto
      · intro i
        rw [f6, e7, List.take_succ_cons, overlay_cons]

/-- C3 (amended). For every message length and every sequence of in-bounds
payloads for one message id, in any order, in which every insertion meets
`cascade_ok` (the cascading merge is left aside: it is sound only when the
fragment it absorbs is the last one and ends at or after the new range):
insertion number `k` returns, and `insert_frag` returns true on it exactly when
the ranges inserted so far, this one included, cover `[0, len)`: false before
the union is complete, true on the insertion that completes it and again on
every later one; the buffer then holds, at every offset, the byte of the
latest payload written there, zero where none was. -/
theorem reassembly_completion (msg_id : Int) (len : Nat) (ops : List (Nat × List Nat))
    (k : Nat) (op : Nat × List Nat)
    (hb : ∀ x ∈ ops, x.1 + x.2.length ≤ len)
    (hc : cascade_ok_run (new_msgbuf msg_id len) ops) (hk : ops[k]? = some op) :
    ∃ flags m r m1, store_all (new_msgbuf msg_id len) (ops.take k) = some (flags, m) ∧
      store_frag m op.1 op.2 = some (r, m1) ∧
      (r = true ↔ ∀ i, i < len → range_covered (ops.take (k + 1)) i) ∧
      m1.buf.length = len ∧
      ∀ i, i < len → m1.buf.getD i 0 = overlay (ops.take (k + 1)) i 0 := by
  obtain ⟨flags, m, f1, f2, f3, -, f5, f6, f7⟩ :=
    store_all_take ops (new_msgbuf msg_id len) k op (msgbuf_ok_new msg_id len) hb hc hk
  have hlen : m.len = len := f3
  have hop : op ∈ ops := List.getElem?_mem hk
  obtain ⟨r, m1, e1, e2, e3, -, e5, e6, e7⟩ :=
    store_frag_spec m op.1 op.2 f2 (by rw [hlen]; exact hb op hop) f7
  have htake : ops.take (k + 1) = ops.take k ++ [op] := by
    rw [List.take_succ, hk]; rfl
  refine ⟨flags, m, r, m1, f1, e1, ?_, ?_, ?_⟩
  · rw [e6, hlen]
    have hcov : ∀ i, frag_covered m1.frags i ↔ range_covered (ops.take (k + 1)) i := by
      intro i
      rw [e5, f5, htake, range_covered_snoc]
      simp [frag_covered, new_msgbuf]
    constructor
    · intro h i hi; exact (hcov i).mp (h i hi)
    · intro h i hi; exact (hcov i).mpr (h i hi)
  · rw [e2.2.2, e3, hlen]
  · intro i hi
    rw [e7, f6, htake, overlay_snoc]
    have h0 : (new_msgbuf msg_id len).buf.getD i 0 = 0 := by
      simp [new_msgbuf, List.getD_eq_getElem?_getD, List.getElem?_replicate, hi]
    rw [h0]

/-- C3 (amended), on a 6-byte message whose payloads arrive as [4, 6), [0, 2),
[2, 4), [0, 1): the third insertion completes the union. -/
theorem reassembly_completion_witness :
    ∃ flags m r m1,
      store_all (new_msgbuf 1 6) ([(4, [5, 6]), (0, [1, 2]), (2, [3, 4]), (0, [9])].take 2) =
        some (flags, m) ∧
      store_frag m 2 [3, 4] = some (r, m1) ∧
      (r = true ↔ ∀ i, i < 6 →
        range_covered ([(4, [5, 6]), (0, [1, 2]), (2, [3, 4]), (0, [9])].take (2 + 1)) i) ∧
      m1.buf.length = 6 ∧
      ∀ i, i < 6 → m1.buf.getD i 0 =
        overlay ([(4, [5, 6]), (0, [1, 2]), (2, [3, 4]), (0, [9])].take (2 + 1)) i 0 :=
  reassembly_completion 1 6 [(4, [5, 6]), (0, [1, 2]), (2, [3, 4]), (0, [9])] 2 (2, [3, 4])
    (by decide)
    (by simp [cascade_ok_run, cascade_ok, store_frag, insert_frag, insert_frag_walk,
      new_msgbuf, absorb_fuel, absorb_loop])
    rfl

/-- C3 as stated fails: on a 4-byte message the payload [0, 4) completes the
union and `insert_frag` returns true, and it returns true again on the later
payload [0, 1). -/
theorem completion_reported_twice :
    (store_all (new_msgbuf 1 4) [(0, [1, 2, 3, 4]), (0, [9])]).map Prod.fst =
      some [true, true] := by
  decide

/-! ## The pending-message table -/

theorem do_send_ack_data_view (audio : ChimeCallAudio) :
    data_view (do_send_ack audio) = data_view audio := by
  by_cases h : audio.data_ack_mask = 0 <;>
    simp [h, do_send_ack, chime_call_transport_send_packet, data_view]

theorem ack_walk_data_view (seq fuel : Nat) (audio : ChimeCallAudio) (pending : Bool) :
    data_view (ack_walk seq fuel (audio, pending)).1 = data_view audio := by
  induction fuel generalizing audio pending with
  | zero => rfl
  | succ n ih =>
    simp only [ack_walk]
    by_cases h1 : seq > audio.data_next_seq
    · by_cases h2 : audio.data_ack_mask &&& 0x8000000000000000 ≠ 0
      · rw [if_pos h1, if_pos h2]
        exact do_send_ack_data_view audio
      · rw [if_pos h1, if_neg h2, ih]
        rfl
    · rw [if_neg h1]

theorem schedule_idle_send_ack_data_view (audio : ChimeCallAudio) :
    data_view (schedule_idle_send_ack audio) = data_view audio := by
  by_cases h : audio.data_ack_source = 0 <;>
    simp [schedule_idle_send_ack, g_source_add, data_view, h]

theorem data_msg_acks_data_view (audio : ChimeCallAudio) (msg : DataMessage) :
    data_view (data_msg_acks audio msg) = data_view audio := by
  unfold data_msg_acks
  simp only []
  rw [schedule_idle_send_ack_data_view]
  by_cases hc : (decide (audio.data_ack_source ≠ 0) || decide (audio.data_ack_mask ≠ 0)) = true
  · rw [if_pos hc]
    exact ack_walk_data_view _ _ _ _
  · rw [if_neg hc]
    rfl

theorem idle_send_ack_data_view (audio : ChimeCallAudio) :
    data_view (idle_send_ack audio) = data_view audio := by
  have := do_send_ack_data_view audio
  simp only [data_view, Prod.mk.injEq] at this ⊢
  exact this

theorem do_send_rt_packet_data_view (now real : Int) (audio : ChimeCallAudio) :
    data_view (do_send_rt_packet now real audio) = data_view audio := by
  simp [do_send_rt_packet, chime_call_transport_send_packet, data_view]

theorem rt_profile_step_data_view (env : Env) (s : ChimeCallAudio × Bool) (p : ProfileMessage) :
    data_view (rt_profile_step env s p).1 = data_view s.1 := by
  unfold rt_profile_step data_view
  cases p.has_stream_id <;> cases profiles_lookup s.1.profiles p.stream_id <;>
    cases p.has_muted <;> cases p.muted <;> cases p.has_volume <;> simp

theorem rt_profiles_data_view (env : Env) (ps : List ProfileMessage)
    (s : ChimeCallAudio × Bool) :
    data_view (ps.foldl (rt_profile_step env) s).1 = data_view s.1 := by
  induction ps generalizing s with
  | nil => rfl
  | cons p rest ih => rw [List.foldl_cons, ih, rt_profile_step_data_view]

theorem audio_receive_rt_msg_data_view (env : Env) (now : Int) (audio : ChimeCallAudio)
    (pkt : List Nat) :
    data_view (audio_receive_rt_msg env now audio pkt).2 = data_view audio := by
  unfold audio_receive_rt_msg
  cases env.rtmessage__unpack pkt with
  | none => rfl
  | some msg =>
    simp only []
    have h1 : ∀ a : ChimeCallAudio, data_view
        (if (List.foldl (rt_profile_step env) (a, false) msg.profiles).2 = true then
          { (List.foldl (rt_profile_step env) (a, false) msg.profiles).1 with
            out := (List.foldl (rt_profile_step env) (a, false) msg.profiles).1.out ++
              [Output.emit_participants] }
         else (List.foldl (rt_profile_step env) (a, false) msg.profiles).1) = data_view a := by
      intro a
      have := rt_profiles_data_view env msg.profiles (a, false)
      split
      · simpa [data_view] using this
      · exact this
    rw [h1]
    cases msg.audio with
    | none => rfl
    | some am =>
      simp only []
      split <;> rfl

theorem audio_receive_auth_msg_data_view (env : Env) (now real : Int) (audio : ChimeCallAudio)
    (pkt : List Nat) :
    data_view (audio_receive_auth_msg env now real audio pkt).2 = data_view audio := by
  unfold audio_receive_auth_msg
  cases env.auth_message__unpack pkt with
  | none => rfl
  | some msg =>
    simp only []
    split
    · have := do_send_rt_packet_data_view now real audio
      by_cases h : (do_send_rt_packet now real audio).send_rt_source = 0
      · simpa [h, g_source_add, chime_call_audio_set_state, data_view] using this
      · simpa [h, chime_call_audio_set_state, data_view] using this
    · rfl

/-- What `find_msgbuf` returns, when it returns, on a table in ascending order
of id. -/
theorem find_msgbuf_spec (msg_id msg_len : Int) :
    ∀ (table : List message_buf) (r : List message_buf × message_buf × List message_buf),
      table.Pairwise (fun x y => x.msg_id < y.msg_id) →
      find_msgbuf table msg_id msg_len = some r →
      r.2.1.msg_id = msg_id ∧
      (∀ x ∈ r.1, x.msg_id < msg_id ∧ x ∈ table) ∧
      (∀ x ∈ r.2.2, msg_id < x.msg_id ∧ x ∈ table) ∧
      r.1.Pairwise (fun x y => x.msg_id < y.msg_id) ∧
      r.2.2.Pairwise (fun x y => x.msg_id < y.msg_id) ∧
      (r.2.1 = new_msgbuf msg_id msg_len.toNat ∨ r.2.1 ∈ table) ∧
      (∀ x ∈ table, x.msg_id ≠ msg_id → x ∈ r.1 ∨ x ∈ r.2.2) := by
  intro table
  induction table with
  | nil =>
    intro r _ h
    simp only [find_msgbuf, alloc_msgbuf] at h
    by_cases hl : msg_len < 0
    · rw [if_pos hl] at h
      cases h
    · rw [if_neg hl] at h
      simp only [Option.map_some', Option.some.injEq] at h
      subst h
      simp [new_msgbuf]
  | cons m rest ih =>
    intro r hp h
    rw [List.pairwise_cons] at hp
    obtain ⟨hm, hrest⟩ := hp
    by_cases c1 : m.msg_id = msg_id
    · have e : find_msgbuf (m :: rest) msg_id msg_len = some ([], m, rest) := by
        simp only [find_msgbuf, c1, ↓reduceIte]
      rw [e] at h
      simp only [Option.some.injEq] at h
      subst h
      refine ⟨c1, by simp, ?_, List.Pairwise.nil, hrest, Or.inr (List.mem_cons_self _ _), ?_⟩
      · intro x hx
        exact ⟨by rw [← c1]; exact hm x hx, List.mem_cons_of_mem _ hx⟩
      · intro x hx hne
        rcases List.mem_cons.mp hx with h | h
        · subst h; exact absurd c1 hne
        · exact Or.inr h
    · by_cases c2 : m.msg_id > msg_id
      · have e : find_msgbuf (m :: rest) msg_id msg_len =
            (alloc_msgbuf msg_id msg_len).map fun n => ([], n, m :: rest) := by
          simp only [find_msgbuf, c1, c2, ↓reduceIte]
        rw [e] at h
        unfold alloc_msgbuf at h
        by_cases hl : msg_len < 0
        · rw [if_pos hl] at h
          cases h
        · rw [if_neg hl] at h
          simp only [Option.map_some', Option.some.injEq] at h
          subst h
          refine ⟨rfl, by simp, ?_, List.Pairwise.nil, ?_, Or.inl rfl, ?_⟩
          · intro x hx
            rcases List.mem_cons.mp hx with h | h
            · subst h; exact ⟨c2, hx⟩
            · have := hm x h
              exact ⟨by omega, hx⟩
          · rw [List.pairwise_cons]; exact ⟨hm, hrest⟩
          · intro x hx _
            exact Or.inr hx
      · have e : find_msgbuf (m :: rest) msg_id msg_len =
            (find_msgbuf rest msg_id msg_len).map fun r => (m :: r.1, r.2.1, r.2.2) := by
          simp only [find_msgbuf, c1, c2, ↓reduceIte]
        rw [e] at h
        cases hf : find_msgbuf rest msg_id msg_len with
        | none => rw [hf] at h; cases h
        | some r0 =>
          rw [hf] at h
          simp only [Option.map_some', Option.some.injEq] at h
          subst h
          obtain ⟨i1, i2, i3, i4, i5, i6, i7⟩ := ih r0 hrest hf
          refine ⟨i1, ?_, ?_, ?_, i5, ?_, ?_⟩
          · intro x hx
            rcases List.mem_cons.mp hx with h | h
            · subst h; exact ⟨by omega, List.mem_cons_self _ _⟩
            · exact ⟨(i2 x h).1, List.mem_cons_of_mem _ (i2 x h).2⟩
          · intro x hx
            exact ⟨(i3 x hx).1, List.mem_cons_of_mem _ (i3 x hx).2⟩
          · rw [List.pairwise_cons]
            exact ⟨fun x hx => hm x (i2 x hx).2, i4⟩
          · rcases i6 with h | h
            · exact Or.inl h
            · exact Or.inr (List.mem_cons_of_mem _ h)
          · intro x hx hne
            rcases List.mem_cons.mp hx with h | h
            · subst h; exact Or.inl (List.mem_cons_self _ _)
            · rcases i7 x h hne with h2 | h2
              · exact Or.inl (List.mem_cons_of_mem _ h2)
              · exact Or.inr h2

/-- Whenever the length argument is not negative, `find_msgbuf` returns. -/
theorem find_msgbuf_returns (msg_id msg_len : Int) (hl : 0 ≤ msg_len) :
    ∀ table : List message_buf, ∃ r, find_msgbuf table msg_id msg_len = some r := by
  have ha : alloc_msgbuf msg_id msg_len = some (new_msgbuf msg_id msg_len.toNat) := by
    unfold alloc_msgbuf
    rw [if_neg (by omega)]
  intro table
  induction table with
  | nil =>
    exact ⟨([], new_msgbuf msg_id msg_len.toNat, []),
      by simp only [find_msgbuf, ha, Option.map_some']⟩
  | cons m rest ih =>
    obtain ⟨r0, h0⟩ := ih
    by_cases c1 : m.msg_id = msg_id
    · exact ⟨([], m, rest), by simp only [find_msgbuf, c1, ↓reduceIte]⟩
    · by_cases c2 : m.msg_id > msg_id
      · exact ⟨([], new_msgbuf msg_id msg_len.toNat, m :: rest),
          by simp only [find_msgbuf, c1, c2, ↓reduceIte, ha, Option.map_some']⟩
      · exact ⟨(m :: r0.1, r0.2.1, r0.2.2),
          by simp only [find_msgbuf, c1, c2, ↓reduceIte, h0, Option.map_some']⟩

/-- The table after `find_msgbuf`, with the found or created entry replaced by
any entry of the same id, is in ascending order. -/
theorem find_msgbuf_pairwise (msg_id msg_len : Int) (table : List message_buf)
    (r : List message_buf × message_buf × List message_buf)
    (hp : table.Pairwise (fun x y => x.msg_id < y.msg_id))
    (hf : find_msgbuf table msg_id msg_len = some r) (x : message_buf)
    (hx : x.msg_id = msg_id) :
    (r.1 ++ x :: r.2.2).Pairwise (fun a b => a.msg_id < b.msg_id) := by
  obtain ⟨-, i2, i3, i4, i5, -, -⟩ := find_msgbuf_spec msg_id msg_len table r hp hf
  rw [List.pairwise_append]
  refine ⟨i4, ?_, ?_⟩
  · rw [List.pairwise_cons]
    exact ⟨fun y hy => by rw [hx]; exact (i3 y hy).1, i5⟩
  · intro a ha b hb
    rcases List.mem_cons.mp hb with h | h
    · subst h; rw [hx]; exact (i2 a ha).1
    · have h1 := (i2 a ha).1
      have h2 := (i3 b h).1
      omega

/-- The prune loop on a table in ascending order of id keeps exactly the
entries whose id is at or above the cutoff. -/
theorem prune_messages_spec (cutoff : Int) :
    ∀ table : List message_buf, table.Pairwise (fun x y => x.msg_id < y.msg_id) →
      (prune_messages cutoff table).Pairwise (fun x y => x.msg_id < y.msg_id) ∧
      (∀ m ∈ prune_messages cutoff table, cutoff ≤ m.msg_id ∧ m ∈ table) ∧
      ((∀ m ∈ table, cutoff ≤ m.msg_id) → prune_messages cutoff table = table) ∧
      (∀ m ∈ table, cutoff ≤ m.msg_id → m ∈ prune_messages cutoff table) := by
  intro table
  induction table with
  | nil => intro _; simp [prune_messages]
  | cons m rest ih =>
    intro hp
    have hp0 := hp
    rw [List.pairwise_cons] at hp
    obtain ⟨hm, hrest⟩ := hp
    obtain ⟨i1, i2, i3, i4⟩ := ih hrest
    by_cases c : m.msg_id ≥ cutoff
    · have e : prune_messages cutoff (m :: rest) = m :: rest := by
        simp only [prune_messages, c, ↓reduceIte]
      rw [e]
      refine ⟨hp0, ?_, fun _ => rfl, fun x hx _ => hx⟩
      intro x hx
      rcases List.mem_cons.mp hx with h | h
      · subst h; exact ⟨c, hx⟩
      · have := hm x h
        exact ⟨by omega, hx⟩
    · have e : prune_messages cutoff (m :: rest) = prune_messages cutoff rest := by
        simp only [prune_messages, c, ↓reduceIte]
      rw [e]
      refine ⟨i1, fun x hx => ⟨(i2 x hx).1, List.mem_cons_of_mem _ (i2 x hx).2⟩, ?_, ?_⟩
      · intro h
        exact absurd (h m (List.mem_cons_self _ _)) c
      · intro x hx hc
        rcases List.mem_cons.mp hx with h | h
        · subst h; exact absurd hc c
        · exact i4 x h hc

theorem audio_receive_stream_msg_data_view (env : Env) (audio : ChimeCallAudio)
    (pkt : List Nat) :
    data_view (audio_receive_stream_msg env audio pkt).2 = data_view audio := by
  unfold audio_receive_stream_msg
  cases env.stream_message__unpack pkt with
  | none => rfl
  | some msg =>
    simp only []
    split <;> rfl

theorem store_frag_msg_id (m : message_buf) (off : Nat) (data : List Nat) (r : Bool)
    (m2 : message_buf) (h : store_frag m off data = some (r, m2)) :
    m2.msg_id = m.msg_id ∧ m2.len = m.len := by
  simp only [store_frag, insert_frag] at h
  cases hw : insert_frag_walk off (off + data.length) m.frags with
  | none => simp [hw] at h
  | some l =>
    simp only [hw, Option.map_some', Option.some.injEq, Prod.mk.injEq] at h
    obtain ⟨-, h2⟩ := h
    subst h2
    exact ⟨rfl, rfl⟩

theorem gint32_range (x : Int) : -2147483648 ≤ gint32 x ∧ gint32 x < 2147483648 := by
  unfold gint32
  omega

theorem gint32_of_fits (x : Int) (h1 : -2147483648 ≤ x) (h2 : x < 2147483648) :
    gint32 x = x := by
  unfold gint32
  omega

/-- An id below 2^32 whose conversion to `gint32` is not negative is below 2^31
and is converted to itself. -/
theorem gint32_nonneg (d : Nat) (hd : d < 2 ^ 32) (h : 0 ≤ gint32 d) :
    gint32 d = d ∧ d < 2147483648 := by
  unfold gint32 at h ⊢
  omega

theorem table_ok_replace (a : ChimeCallAudio) (msg_id msg_len : Int)
    (r : List message_buf × message_buf × List message_buf) (x : message_buf)
    (hok : table_ok a) (hf : find_msgbuf a.data_messages msg_id msg_len = some r)
    (hx : x.msg_id = msg_id) (h31 : msg_id < 2147483648)
    (hc : 0 ≤ msg_id → a.data_next_logical_msg ≤ msg_id) :
    table_ok { a with data_messages := r.1 ++ x :: r.2.2 } := by
  obtain ⟨-, i2, i3, -, -, -, -⟩ := find_msgbuf_spec msg_id msg_len a.data_messages r hok.1 hf
  refine ⟨find_msgbuf_pairwise msg_id msg_len a.data_messages r hok.1 hf x hx, ?_⟩
  intro m hm
  show m.msg_id < 2147483648 ∧ (0 ≤ m.msg_id → a.data_next_logical_msg ≤ m.msg_id)
  rcases List.mem_append.mp hm with h | h
  · exact hok.2 m (i2 m h).2
  · rcases List.mem_cons.mp h with h | h
    · subst h; rw [hx]; exact ⟨h31, hc⟩
    · exact hok.2 m (i3 m h).2

/-- What the part after `find_msgbuf` does to the table and the cutoff,
whenever it returns. -/
theorem data_msg_store_spec (env : Env) (a : ChimeCallAudio) (msg : DataMessage)
    (r : List message_buf × message_buf × List message_buf) (res : Bool) (a' : ChimeCallAudio)
    (hrep : ∀ x : message_buf, x.msg_id = r.2.1.msg_id →
      table_ok { a with data_messages := r.1 ++ x :: r.2.2 })
    (h : data_msg_store env a msg r = some (res, a')) :
    table_ok a' ∧
    (a'.data_next_logical_msg = a.data_next_logical_msg ∨
      a'.data_next_logical_msg = gint32 (r.2.1.msg_id + 1)) := by
  unfold data_msg_store at h
  simp only [] at h
  by_cases c1 : msg.msg_len ≠ r.2.1.len
  · rw [if_pos c1] at h
    simp only [Option.some.injEq, Prod.mk.injEq] at h
    obtain ⟨-, h2⟩ := h
    subst h2
    exact ⟨hrep _ rfl, Or.inl rfl⟩
  · rw [if_neg c1] at h
    by_cases c2 : msg.offset + msg.data.length > r.2.1.len
    · rw [if_pos c2] at h
      simp only [Option.some.injEq, Prod.mk.injEq] at h
      obtain ⟨-, h2⟩ := h
      subst h2
      exact ⟨hrep _ rfl, Or.inl rfl⟩
    · rw [if_neg c2] at h
      cases hs : store_frag r.2.1 msg.offset msg.data with
      | none => simp [hs] at h
      | some p =>
        obtain ⟨complete, m2⟩ := p
        have hid : m2.msg_id = r.2.1.msg_id := (store_frag_msg_id _ _ _ _ _ hs).1
        simp only [hs] at h
        have hok1 := hrep m2 hid
        cases complete with
        | false =>
          simp only [Bool.false_eq_true, ↓reduceIte, Option.some.injEq, Prod.mk.injEq] at h
          obtain ⟨-, h2⟩ := h
          subst h2
          exact ⟨hok1, Or.inl rfl⟩
        | true =>
          simp only [↓reduceIte, Option.some.injEq, Prod.mk.injEq] at h
          obtain ⟨-, h2⟩ := h
          subst h2
          by_cases hf : is_stream_frame env m2
          · simp only [hf, ↓reduceIte]
            have hv := audio_receive_stream_msg_data_view env
              { a with data_messages := r.1 ++ m2 :: r.2.2 } (m2.buf.drop xrp_header_size)
            simp only [data_view, Prod.mk.injEq] at hv
            obtain ⟨hv1, -⟩ := hv
            rw [hv1]
            obtain ⟨p1, p2, -, -⟩ := prune_messages_spec (gint32 (m2.msg_id + 1)) _ hok1.1
            refine ⟨⟨p1, fun m hm => ⟨(hok1.2 m (p2 m hm).2).1, fun _ => (p2 m hm).1⟩⟩,
              Or.inr (by rw [hid])⟩
          · simp only [hf, ↓reduceIte]
            obtain ⟨p1, p2, -, -⟩ := prune_messages_spec a.data_next_logical_msg _ hok1.1
            exact ⟨⟨p1, fun m hm => ⟨(hok1.2 m (p2 m hm).2).1, fun _ => (p2 m hm).1⟩⟩,
              Or.inl trivial⟩

/-- What the reassembly part does to the table and the cutoff, whenever it
returns, for a message id below 2^32. -/
theorem data_msg_reassemble_spec (env : Env) (a : ChimeCallAudio) (msg : DataMessage)
    (r : Bool) (a' : ChimeCallAudio) (hok : table_ok a) (hb : msg.msg_id < 2 ^ 32)
    (h : data_msg_reassemble env a msg = some (r, a')) :
    table_ok a' ∧
    (a'.data_next_logical_msg = a.data_next_logical_msg ∨
      (a'.data_next_logical_msg = gint32 (gint32 msg.msg_id + 1) ∧
        a.data_next_logical_msg ≤ msg.msg_id)) := by
  unfold data_msg_reassemble at h
  by_cases c0 : (msg.msg_id : Int) < a.data_next_logical_msg
  · rw [if_pos c0] at h
    simp only [Option.some.injEq, Prod.mk.injEq] at h
    obtain ⟨-, h2⟩ := h
    subst h2
    exact ⟨hok, Or.inl rfl⟩
  · rw [if_neg c0] at h
    cases hf : find_msgbuf a.data_messages (gint32 msg.msg_id) (gint32 msg.msg_len) with
    | none => simp [hf] at h
    | some r0 =>
      simp only [hf] at h
      obtain ⟨i1, -, -, -, -, -, -⟩ :=
        find_msgbuf_spec _ _ a.data_messages r0 hok.1 hf
      have hrep : ∀ x : message_buf, x.msg_id = r0.2.1.msg_id →
          table_ok { a with data_messages := r0.1 ++ x :: r0.2.2 } := by
        intro x hx
        refine table_ok_replace a _ _ r0 x hok hf (by rw [hx, i1]) (gint32_range _).2 ?_
        intro h0
        have := (gint32_nonneg msg.msg_id hb h0).1
        omega
      obtain ⟨s1, s2⟩ := data_msg_store_spec env a msg r0 r a' hrep h
      refine ⟨s1, ?_⟩
      rcases s2 with s2 | s2
      · exact Or.inl s2
      · exact Or.inr ⟨by rw [s2, i1], by omega⟩

theorem table_ok_of_data_view (a b : ChimeCallAudio) (h : data_view b = data_view a)
    (hok : table_ok a) : table_ok b := by
  simp only [data_view, Prod.mk.injEq] at h
  obtain ⟨h1, h2⟩ := h
  unfold table_ok
  rw [h1, h2]
  exact hok

theorem audio_receive_data_msg_decoded_table_ok (env : Env) (a : ChimeCallAudio)
    (msg : DataMessage) (r : Bool) (a' : ChimeCallAudio) (hok : table_ok a)
    (hb : msg.msg_id < 2 ^ 32)
    (h : audio_receive_data_msg_decoded env a msg = some (r, a')) : table_ok a' := by
  unfold audio_receive_data_msg_decoded at h
  split at h
  · simp only [Option.some.injEq, Prod.mk.injEq] at h
    obtain ⟨-, h2⟩ := h
    subst h2
    exact hok
  · exact (data_msg_reassemble_spec env _ msg r a'
      (table_ok_of_data_view a _ (data_msg_acks_data_view a msg) hok) hb h).1

/-- Every reachable session keeps its pending-message table in strictly
ascending order of stored id, with every id a `gint32` value and no
non-negative id below the cutoff. -/
theorem reachable_table_ok (env : Env) (a : ChimeCallAudio) (h : Reachable env a) :
    table_ok a := by
  induction h with
  | opened seq0 sample0 muted =>
    refine ⟨?_, ?_⟩ <;>
      simp [chime_call_audio_open, chime_call_audio_set_state, chime_call_transport_connect]
  | step a a' _ hs ih =>
    cases hs with
    | packet now real pkt _ _ r hp =>
      unfold audio_receive_packet audio_receive_packet_with at hp
      split at hp
      · simp only [Option.some.injEq, Prod.mk.injEq] at hp
        obtain ⟨-, h2⟩ := hp; subst h2; exact ih
      · split at hp
        · simp only [Option.some.injEq, Prod.mk.injEq] at hp
          obtain ⟨-, h2⟩ := hp; subst h2; exact ih
        · simp only [] at hp
          split at hp
          · simp only [Option.some.injEq] at hp
            have := audio_receive_rt_msg_data_view env now a (pkt.drop 4)
            rw [hp] at this
            exact table_ok_of_data_view a _ this ih
          · split at hp
            · simp only [Option.some.injEq] at hp
              have := audio_receive_auth_msg_data_view env now real a (pkt.drop 4)
              rw [hp] at this
              exact table_ok_of_data_view a _ this ih
            · split at hp
              · unfold audio_receive_data_msg at hp
                split at hp
                · simp only [Option.some.injEq, Prod.mk.injEq] at hp
                  obtain ⟨-, h2⟩ := hp; subst h2; exact ih
                · rename_i msg hdec
                  exact audio_receive_data_msg_decoded_table_ok env a _ r a' ih
                    (env.msg_id_32 _ _ hdec) hp
              · simp only [Option.some.injEq, Prod.mk.injEq] at hp
                obtain ⟨-, h2⟩ := hp; subst h2; exact ih
    | idle_ack _ _ => exact table_ok_of_data_view a _ (idle_send_ack_data_view a) ih
    | rt_tick now real _ _ =>
      exact table_ok_of_data_view a _ (do_send_rt_packet_data_view now real a) ih

theorem audio_receive_stream_msg_ack_view (env : Env) (audio : ChimeCallAudio)
    (pkt : List Nat) :
    ack_view (audio_receive_stream_msg env audio pkt).2 = ack_view audio := by
  unfold audio_receive_stream_msg
  cases env.stream_message__unpack pkt with
  | none => rfl
  | some msg =>
    simp only []
    split <;> rfl

theorem data_msg_store_ack_view (env : Env) (a : ChimeCallAudio) (msg : DataMessage)
    (r : List message_buf × message_buf × List message_buf) (res : Bool) (a' : ChimeCallAudio)
    (h : data_msg_store env a msg r = some (res, a')) : ack_view a' = ack_view a := by
  unfold data_msg_store at h
  simp only [] at h
  split at h
  · simp only [Option.some.injEq, Prod.mk.injEq] at h
    obtain ⟨-, h2⟩ := h
    subst h2
    rfl
  · split at h
    · simp only [Option.some.injEq, Prod.mk.injEq] at h
      obtain ⟨-, h2⟩ := h
      subst h2
      rfl
    · cases hs : store_frag r.2.1 msg.offset msg.data with
      | none => simp [hs] at h
      | some p =>
        obtain ⟨complete, m2⟩ := p
        simp only [hs] at h
        cases complete with
        | false =>
          simp only [Bool.false_eq_true, ↓reduceIte, Option.some.injEq, Prod.mk.injEq] at h
          obtain ⟨-, h2⟩ := h
          subst h2
          rfl
        | true =>
          simp only [↓reduceIte, Option.some.injEq, Prod.mk.injEq] at h
          obtain ⟨-, h2⟩ := h
          subst h2
          by_cases hf : is_stream_frame env m2
          · simp only [hf, ↓reduceIte]
            exact audio_receive_stream_msg_ack_view env
              { a with data_messages := r.1 ++ m2 :: r.2.2 } (m2.buf.drop xrp_header_size)
          · simp only [hf, ↓reduceIte]
            rfl

/-- The acknowledgement fields after `audio_receive_data_msg` has handled a
decoded message are those that `ack_step` computes: the reassembly part leaves
them alone. -/
theorem audio_receive_data_msg_decoded_ack_view (env : Env) (a : ChimeCallAudio)
    (msg : DataMessage) (r : Bool) (a' : ChimeCallAudio)
    (h : audio_receive_data_msg_decoded env a msg = some (r, a')) :
    ack_view a' = ack_view (ack_step a (AckEvent.data msg)) := by
  unfold audio_receive_data_msg_decoded at h
  simp only [ack_step]
  split at h
  · rename_i hg
    rw [if_pos hg]
    simp only [Option.some.injEq, Prod.mk.injEq] at h
    obtain ⟨-, h2⟩ := h
    subst h2
    rfl
  · rename_i hg
    rw [if_neg hg]
    unfold data_msg_reassemble at h
    split at h
    · simp only [Option.some.injEq, Prod.mk.injEq] at h
      obtain ⟨-, h2⟩ := h
      subst h2
      rfl
    · cases hf : find_msgbuf (data_msg_acks a msg).data_messages (gint32 msg.msg_id)
          (gint32 msg.msg_len) with
      | none => simp [hf] at h
      | some r0 =>
        simp only [hf] at h
        exact data_msg_store_ack_view env _ msg r0 r a' h

theorem absorb_loop_fixed (nf : message_frag) (nf_next : List message_frag) (n : Nat) :
    absorb_loop nf nf_next (n + 1) (nf.end_, nf_next) =
      if nf_next ≠ [] ∧ nf.start ≤ nf.end_ then none else some (nf.end_, nf_next) := by
  induction n with
  | zero => simp only [absorb_loop]
  | succ k ih =>
    rw [absorb_loop, ih]
    split <;> rfl

/-- The cascading-merge loop stops at its first or second test or never: more
than `absorb_fuel` tests never change the outcome. -/
theorem absorb_loop_fuel (nf : message_frag) (nf_next : List message_frag) (n : Nat)
    (s : Nat × List message_frag) :
    absorb_loop nf nf_next (n + absorb_fuel) s = absorb_loop nf nf_next absorb_fuel s := by
  obtain ⟨e, next⟩ := s
  have h1 : ∀ k, absorb_loop nf nf_next (k + 1 + 1) (e, next) =
      if next ≠ [] ∧ nf.start ≤ e then absorb_loop nf nf_next (k + 1) (nf.end_, nf_next)
      else some (e, next) := fun _ => rfl
  show absorb_loop nf nf_next (n + 1 + 1) (e, next) = absorb_loop nf nf_next (0 + 1 + 1) (e, next)
  rw [h1, h1, absorb_loop_fixed, absorb_loop_fixed]

/-- The walk over missing sequence numbers needs no more iterations than
`msg->seq - data_next_seq`. -/
theorem ack_walk_fuel (seq n : Nat) (audio : ChimeCallAudio) (pending : Bool)
    (h : seq - audio.data_next_seq ≤ n) :
    ack_walk seq n (audio, pending) =
      ack_walk seq (seq - audio.data_next_seq) (audio, pending) := by
  induction n generalizing audio pending with
  | zero =>
    have : seq - audio.data_next_seq = 0 := by omega
    rw [this]
  | succ k ih =>
    by_cases h1 : seq > audio.data_next_seq
    · obtain ⟨j, hj⟩ : ∃ j, seq - audio.data_next_seq = j + 1 := ⟨seq - audio.data_next_seq - 1, by omega⟩
      rw [hj]
      simp only [ack_walk]
      rw [if_pos h1, if_pos h1]
      by_cases h2 : audio.data_ack_mask &&& 0x8000000000000000 ≠ 0
      · rw [if_pos h2, if_pos h2]
      · rw [if_neg h2, if_neg h2, ih _ _ (by show seq - (audio.data_next_seq + 1) ≤ k; omega)]
        have : seq - (audio.data_next_seq + 1) = j := by omega
        show ack_walk seq (seq - (audio.data_next_seq + 1)) _ = _
        rw [this]
    · have : seq - audio.data_next_seq = 0 := by omega
      rw [this]
      simp only [ack_walk]
      rw [if_neg h1]

/-! ## Replayed messages -/

theorem do_send_ack_profiles (audio : ChimeCallAudio) :
    (do_send_ack audio).profiles = audio.profiles := by
  by_cases h : audio.data_ack_mask = 0 <;>
    simp [h, do_send_ack, chime_call_transport_send_packet]

theorem ack_walk_profiles (seq fuel : Nat) (audio : ChimeCallAudio) (pending : Bool) :
    (ack_walk seq fuel (audio, pending)).1.profiles = audio.profiles := by
  induction fuel generalizing audio pending with
  | zero => rfl
  | succ n ih =>
    simp only [ack_walk]
    by_cases h1 : seq > audio.data_next_seq
    · by_cases h2 : audio.data_ack_mask &&& 0x8000000000000000 ≠ 0
      · rw [if_pos h1, if_pos h2]
        exact do_send_ack_profiles audio
      · rw [if_pos h1, if_neg h2, ih]
    · rw [if_neg h1]

theorem data_msg_acks_profiles (audio : ChimeCallAudio) (msg : DataMessage) :
    (data_msg_acks audio msg).profiles = audio.profiles := by
  have hs : ∀ a : ChimeCallAudio, (schedule_idle_send_ack a).profiles = a.profiles := by
    intro a
    by_cases h : a.data_ack_source = 0 <;> simp [schedule_idle_send_ack, g_source_add, h]
  unfold data_msg_acks
  simp only []
  rw [hs]
  by_cases hc : (decide (audio.data_ack_source ≠ 0) || decide (audio.data_ack_mask ≠ 0)) = true
  · rw [if_pos hc]
    exact ack_walk_profiles _ _ _ _
  · rw [if_neg hc]

/-- C11 (amended). Replay drop: for every Data message that carries the seq,
msg_id and msg_len fields and whose msg_id is below the cutoff,
`audio_receive_data_msg` returns TRUE and leaves the reassembler state as it
was: the pending-message table with every buffer and fragment list, the cutoff
and the stream-id map are unchanged (only the acknowledgement fields move). -/
theorem replayed_data_msg_dropped (env : Env) (a : ChimeCallAudio) (pkt : List Nat)
    (msg : DataMessage) (hdec : env.data_message__unpack pkt = some msg)
    (hseq : msg.has_seq = true) (hid : msg.has_msg_id = true) (hlen : msg.has_msg_len = true)
    (hold : msg.msg_id < a.data_next_logical_msg) :
    audio_receive_data_msg env a pkt = some (true, data_msg_acks a msg) ∧
    (data_msg_acks a msg).data_messages = a.data_messages ∧
    (data_msg_acks a msg).data_next_logical_msg = a.data_next_logical_msg ∧
    (data_msg_acks a msg).profiles = a.profiles := by
  have hv := data_msg_acks_data_view a msg
  simp only [data_view, Prod.mk.injEq] at hv
  obtain ⟨hv1, hv2⟩ := hv
  refine ⟨?_, hv1, hv2, data_msg_acks_profiles a msg⟩
  unfold audio_receive_data_msg audio_receive_data_msg_decoded data_msg_reassemble
  rw [hdec]
  simp only [hseq, hid, hlen, Bool.not_true, Bool.or_self, Bool.false_eq_true, ↓reduceIte]
  rw [hv2, if_pos hold]

/-- C11 (amended), on the sample session whose cutoff is 7 and a Data packet
for message 5. -/
theorem replayed_data_msg_dropped_witness :
    audio_receive_data_msg sample_env sample_completed [3, 5, 8, 1, 2] =
        some (true, data_msg_acks sample_completed (data_msg 3 5 8 1 [2])) ∧
      (data_msg_acks sample_completed (data_msg 3 5 8 1 [2])).data_messages =
        sample_completed.data_messages ∧
      (data_msg_acks sample_completed (data_msg 3 5 8 1 [2])).data_next_logical_msg =
        sample_completed.data_next_logical_msg ∧
      (data_msg_acks sample_completed (data_msg 3 5 8 1 [2])).profiles =
        sample_completed.profiles :=
  replayed_data_msg_dropped sample_env sample_completed [3, 5, 8, 1, 2]
    (data_msg 3 5 8 1 [2]) rfl rfl rfl rfl (by decide)

/-- C11 as stated fails: with the cutoff at 7, a Data message for id 3 that
carries no sequence number is below the cutoff and is answered FALSE. -/
theorem replayed_data_msg_without_seq_rejected :
    sample_completed.data_next_logical_msg = 7 ∧
      audio_receive_data_msg sample_env_no_seq sample_completed [] =
        some (false, sample_completed) := by
  decide

/-! ## Completion test and table order -/

/-- C19, at the failing input.  A freshly opened session (cutoff 0) receives
one Data message with message id 2147483648 (2^31), length 8 and one payload
byte.  The id is not below the cutoff, so the message is not dropped as a
replay; `find_msgbuf` takes the id as a `gint32` and stores the entry under
-2147483648.  The session reached this way holds an entry whose id is below
the cutoff. -/
theorem pending_table_entry_below_cutoff :
    Reachable sample_env sample_wide_id ∧
      audio_receive_data_msg sample_env sample_session [1, 2147483648, 8, 0, 1] =
        some (true, sample_wide_id) ∧
      sample_wide_id.data_next_logical_msg = 0 ∧
      (sample_wide_id.data_messages.map fun m => m.msg_id) = [-2147483648] :=
  ⟨Reachable.step _ _ (Reachable.opened 0 0 false)
      (Step.packet 0 0 (xrp_encode 4 [1, 2147483648, 8, 0, 1]) sample_session sample_wide_id
        true (by decide)),
    by decide, by decide, by decide⟩

/-! ## Authorization handshake -/

theorem do_send_rt_packet_fields (now real : Int) (audio : ChimeCallAudio) :
    (do_send_rt_packet now real audio).out =
        audio.out ++ [Output.sent_rt (do_send_rt_packet now real audio).audio_msg] ∧
    (do_send_rt_packet now real audio).send_rt_source = audio.send_rt_source ∧
    (do_send_rt_packet now real audio).data_ack_source = audio.data_ack_source ∧
    (do_send_rt_packet now real audio).source_ids = audio.source_ids ∧
    (do_send_rt_packet now real audio).live_sources = audio.live_sources ∧
    (do_send_rt_packet now real audio).muted = audio.muted ∧
    (do_send_rt_packet now real audio).state = audio.state := by
  simp [do_send_rt_packet, chime_call_transport_send_packet]

/-- What a successful Auth message does: one RealTime packet is sent, the
periodic timer is registered unless a handle is recorded already, and the
state follows the mute flag. -/
theorem audio_receive_auth_msg_authorized (env : Env) (now real : Int) (audio : ChimeCallAudio)
    (pkt : List Nat) (msg : AuthMessage) (hdec : env.auth_message__unpack pkt = some msg)
    (ha : (msg.has_authorized && msg.authorized) = true) :
    (audio_receive_auth_msg env now real audio pkt).1 = true ∧
    (audio_receive_auth_msg env now real audio pkt).2.state =
      (if audio.muted then ChimeAudioState.AUDIO_STATE_MUTED
       else ChimeAudioState.AUDIO_STATE_AUDIO) ∧
    (audio_receive_auth_msg env now real audio pkt).2.out =
      audio.out ++ [Output.sent_rt (do_send_rt_packet now real audio).audio_msg] ∧
    (audio_receive_auth_msg env now real audio pkt).2.send_rt_source =
      (if audio.send_rt_source = 0 then audio.source_ids + 1 else audio.send_rt_source) ∧
    (audio_receive_auth_msg env now real audio pkt).2.live_sources =
      (if audio.send_rt_source = 0 then audio.live_sources ++ [audio.source_ids + 1]
       else audio.live_sources) ∧
    (audio_receive_auth_msg env now real audio pkt).2.source_ids =
      (if audio.send_rt_source = 0 then audio.source_ids + 1 else audio.source_ids) ∧
    (audio_receive_auth_msg env now real audio pkt).2.muted = audio.muted := by
  obtain ⟨f1, f2, -, f4, f5, f6, -⟩ := do_send_rt_packet_fields now real audio
  unfold audio_receive_auth_msg
  rw [hdec]
  simp only [ha, ↓reduceIte]
  by_cases h0 : audio.send_rt_source = 0
  · have h1 : (do_send_rt_packet now real audio).send_rt_source = 0 := by rw [f2, h0]
    simp only [h1, h0, ↓reduceIte, chime_call_audio_set_state, g_source_add, f1, f4, f5, f6,
      and_self]
  · have h1 : ¬ (do_send_rt_packet now real audio).send_rt_source = 0 := by rw [f2]; exact h0
    simp only [h1, h0, ↓reduceIte, chime_call_audio_set_state, f1, f2, f4, f5, f6, and_self]

/-- C12. Handshake scenario: on a fresh, unmuted session an Auth message with
authorized=true sends exactly one RealTime packet at once, enters Audio and
registers exactly one periodic timer (one source handed out, and it is the
one recorded); a second Auth message with authorized=true registers no second
timer: the recorded handle, the live sources and the number of sources handed
out are unchanged. -/
theorem handshake_arms_one_timer (env : Env) (seq0 sample0 : Nat) (now1 real1 now2 real2 : Int)
    (pkt1 pkt2 : List Nat) (msg1 msg2 : AuthMessage)
    (hdec1 : env.auth_message__unpack pkt1 = some msg1)
    (ha1 : (msg1.has_authorized && msg1.authorized) = true)
    (hdec2 : env.auth_message__unpack pkt2 = some msg2)
    (ha2 : (msg2.has_authorized && msg2.authorized) = true) :
    (audio_receive_auth_msg env now1 real1 (chime_call_audio_open seq0 sample0 false) pkt1).2.out =
      [Output.sent_rt
        (do_send_rt_packet now1 real1 (chime_call_audio_open seq0 sample0 false)).audio_msg] ∧
    (audio_receive_auth_msg env now1 real1
      (chime_call_audio_open seq0 sample0 false) pkt1).2.state =
        ChimeAudioState.AUDIO_STATE_AUDIO ∧
    (audio_receive_auth_msg env now1 real1
      (chime_call_audio_open seq0 sample0 false) pkt1).2.send_rt_source = 1 ∧
    (audio_receive_auth_msg env now1 real1
      (chime_call_audio_open seq0 sample0 false) pkt1).2.live_sources = [1] ∧
    (audio_receive_auth_msg env now1 real1
      (chime_call_audio_open seq0 sample0 false) pkt1).2.source_ids = 1 ∧
    (audio_receive_auth_msg env now2 real2 (audio_receive_auth_msg env now1 real1
      (chime_call_audio_open seq0 sample0 false) pkt1).2 pkt2).2.send_rt_source = 1 ∧
    (audio_receive_auth_msg env now2 real2 (audio_receive_auth_msg env now1 real1
      (chime_call_audio_open seq0 sample0 false) pkt1).2 pkt2).2.live_sources = [1] ∧
    (audio_receive_auth_msg env now2 real2 (audio_receive_auth_msg env now1 real1
      (chime_call_audio_open seq0 sample0 false) pkt1).2 pkt2).2.source_ids = 1 := by
  obtain ⟨-, s1, o1, r1, l1, n1, -⟩ := audio_receive_auth_msg_authorized env now1 real1
    (chime_call_audio_open seq0 sample0 false) pkt1 msg1 hdec1 ha1
  obtain ⟨-, -, -, r2, l2, n2, -⟩ := audio_receive_auth_msg_authorized env now2 real2
    (audio_receive_auth_msg env now1 real1 (chime_call_audio_open seq0 sample0 false) pkt1).2
    pkt2 msg2 hdec2 ha2
  have e1 : (audio_receive_auth_msg env now1 real1
      (chime_call_audio_open seq0 sample0 false) pkt1).2.send_rt_source = 1 := by
    rw [r1]; rfl
  have e2 : (audio_receive_auth_msg env now1 real1
      (chime_call_audio_open seq0 sample0 false) pkt1).2.live_sources = [1] := by
    rw [l1]; rfl
  have e3 : (audio_receive_auth_msg env now1 real1
      (chime_call_audio_open seq0 sample0 false) pkt1).2.source_ids = 1 := by
    rw [n1]; rfl
  refine ⟨?_, ?_, e1, e2, e3, ?_, ?_, ?_⟩
  · rw [o1]; rfl
  · rw [s1]; rfl
  · rw [r2, e1]; rfl
  · rw [l2, e1, e2]; rfl
  · rw [n2, e1, e3]; rfl

/-- C12, on the sample collaborators. -/
theorem handshake_arms_one_timer_witness :
    ((audio_receive_auth_msg sample_env 0 0 sample_session [1]).2.out.length = 1 ∧
      (audio_receive_auth_msg sample_env 0 0 sample_session [1]).2.live_sources = [1]) ∧
    (audio_receive_auth_msg sample_env 7 7
      (audio_receive_auth_msg sample_env 0 0 sample_session [1]).2 [1]).2.live_sources = [1] :=
  have h := handshake_arms_one_timer sample_env 0 0 0 0 7 7 [1] [1]
    { has_authorized := true, authorized := true } { has_authorized := true, authorized := true }
    rfl rfl rfl rfl
  ⟨⟨by rw [show (audio_receive_auth_msg sample_env 0 0 sample_session [1]).2.out = _ from h.1]
       rfl, h.2.2.2.1⟩, h.2.2.2.2.2.2.1⟩

/-- C13 (amended). On a successful Auth message the state becomes Muted when
the session's mute flag is set and Audio otherwise; whether or not the session
is muted, one RealTime packet is sent at once and a periodic RealTime timer is
recorded as armed afterwards, registered by this message when none was
recorded before. -/
theorem auth_sends_and_arms_when_muted (env : Env) (now real : Int) (audio : ChimeCallAudio)
    (pkt : List Nat) (msg : AuthMessage) (hdec : env.auth_message__unpack pkt = some msg)
    (ha : (msg.has_authorized && msg.authorized) = true) :
    (audio.muted = true → (audio_receive_auth_msg env now real audio pkt).2.state =
      ChimeAudioState.AUDIO_STATE_MUTED) ∧
    (audio.muted = false → (audio_receive_auth_msg env now real audio pkt).2.state =
      ChimeAudioState.AUDIO_STATE_AUDIO) ∧
    (audio_receive_auth_msg env now real audio pkt).2.out =
      audio.out ++ [Output.sent_rt (do_send_rt_packet now real audio).audio_msg] ∧
    (audio_receive_auth_msg env now real audio pkt).2.send_rt_source ≠ 0 ∧
    (audio.send_rt_source = 0 →
      (audio_receive_auth_msg env now real audio pkt).2.live_sources =
        audio.live_sources ++ [(audio_receive_auth_msg env now real audio pkt).2.send_rt_source]) := by
  obtain ⟨-, s1, o1, r1, l1, -, -⟩ :=
    audio_receive_auth_msg_authorized env now real audio pkt msg hdec ha
  refine ⟨?_, ?_, o1, ?_, ?_⟩
  · intro hm; rw [s1, hm]; rfl
  · intro hm; rw [s1, hm]; rfl
  · rw [r1]
    split
    · omega
    · assumption
  · intro h0
    rw [l1, r1, if_pos h0, if_pos h0]

/-- C13 (amended), on the muted sample session. -/
theorem auth_sends_and_arms_when_muted_witness :
    (audio_receive_auth_msg sample_env 0 0 sample_muted_session [1]).2.state =
        ChimeAudioState.AUDIO_STATE_MUTED ∧
      (audio_receive_auth_msg sample_env 0 0 sample_muted_session [1]).2.send_rt_source ≠ 0 :=
  have h := auth_sends_and_arms_when_muted sample_env 0 0 sample_muted_session [1]
    { has_authorized := true, authorized := true } rfl rfl
  ⟨h.1 rfl, h.2.2.2.1⟩

/-- C13 as stated fails: a successful Auth message on a muted session sends
one RealTime packet and arms the periodic timer. -/
theorem muted_auth_sends_rt_packet :
    sample_muted_session.muted = true ∧
      (audio_receive_auth_msg sample_env 0 0 sample_muted_session [1]).2.out.length = 1 ∧
      (audio_receive_auth_msg sample_env 0 0 sample_muted_session [1]).2.send_rt_source = 1 ∧
      (audio_receive_auth_msg sample_env 0 0 sample_muted_session [1]).2.live_sources = [1] := by
  decide

/-- C14. An Auth message that declares success sets the session state to Muted
when the mute flag is set and to Audio otherwise; an Auth message that decodes
but does not declare success (authorized absent or false) returns TRUE and
leaves the whole session as it was: state, timer handles and outbound counters
are unchanged and nothing is sent. -/
theorem auth_state_transition (env : Env) (now real : Int) (audio : ChimeCallAudio)
    (pkt : List Nat) (msg : AuthMessage) (hdec : env.auth_message__unpack pkt = some msg) :
    ((msg.has_authorized && msg.authorized) = true →
      (audio_receive_auth_msg env now real audio pkt).2.state =
        (if audio.muted then ChimeAudioState.AUDIO_STATE_MUTED
         else ChimeAudioState.AUDIO_STATE_AUDIO)) ∧
    ((msg.has_authorized && msg.authorized) = false →
      audio_receive_auth_msg env now real audio pkt = (true, audio)) := by
  constructor
  · intro ha
    exact (audio_receive_auth_msg_authorized env now real audio pkt msg hdec ha).2.1
  · intro ha
    unfold audio_receive_auth_msg
    rw [hdec]
    simp only [ha, Bool.false_eq_true, ↓reduceIte]

/-- C14, on an Auth packet that declares authorized=false. -/
theorem auth_state_transition_witness :
    audio_receive_auth_msg sample_env 0 0 sample_session [0] = (true, sample_session) :=
  (auth_state_transition sample_env 0 0 sample_session [0]
    { has_authorized := true, authorized := false } rfl).2 rfl

/-! ## RealTime receiver and sender -/

/-- The loop body of `audio_receive_rt_msg` forwards what `forwarded_stats`
says and touches neither the stream-id map nor the clock fields. -/
theorem rt_profile_step_out (env : Env) (s : ChimeCallAudio × Bool) (p : ProfileMessage) :
    (rt_profile_step env s p).1.out = s.1.out ++ (forwarded_stats s.1.profiles p).toList ∧
    (rt_profile_step env s p).1.profiles = s.1.profiles ∧
    clock_view (rt_profile_step env s p).1 = clock_view s.1 := by
  unfold rt_profile_step forwarded_stats profile_level clock_view
  cases p.has_stream_id <;> cases profiles_lookup s.1.profiles p.stream_id <;>
    cases p.has_muted <;> cases p.muted <;> cases p.has_volume <;> simp

theorem rt_profiles_out (env : Env) (ps : List ProfileMessage) (s : ChimeCallAudio × Bool) :
    (ps.foldl (rt_profile_step env) s).1.out =
        s.1.out ++ ps.filterMap (forwarded_stats s.1.profiles) ∧
    (ps.foldl (rt_profile_step env) s).1.profiles = s.1.profiles ∧
    clock_view (ps.foldl (rt_profile_step env) s).1 = clock_view s.1 := by
  induction ps generalizing s with
  | nil => simp
  | cons p rest ih =>
    obtain ⟨h1, h2, h3⟩ := rt_profile_step_out env s p
    obtain ⟨i1, i2, i3⟩ := ih (rt_profile_step env s p)
    rw [List.foldl_cons, i1, i2, i3, h1, h2, h3]
    refine ⟨?_, rfl, rfl⟩
    cases hf : forwarded_stats s.1.profiles p with
    | none => simp [List.filterMap_cons, hf]
    | some o => simp [List.filterMap_cons, hf]

/-- The session after `audio_receive_rt_msg` has recorded the server time of
the message, before the loop over the profile entries. -/
theorem audio_receive_rt_msg_decoded (env : Env) (now : Int) (audio : ChimeCallAudio)
    (pkt : List Nat) (msg : RTMessage) (hdec : env.rtmessage__unpack pkt = some msg) :
    ∃ audio1 : ChimeCallAudio,
      audio1.out = audio.out ∧ audio1.profiles = audio.profiles ∧
      clock_view audio1 =
        (match msg.audio with
         | none => clock_view audio
         | some am =>
           if am.has_server_time then (am.server_time - now, true, audio.audio_msg)
           else clock_view audio) ∧
      (audio_receive_rt_msg env now audio pkt).1 = true ∧
      clock_view (audio_receive_rt_msg env now audio pkt).2 = clock_view audio1 ∧
      (audio_receive_rt_msg env now audio pkt).2.profiles = audio.profiles ∧
      ∃ tail, (tail = [] ∨ tail = [Output.emit_participants]) ∧
        (audio_receive_rt_msg env now audio pkt).2.out =
          audio.out ++ msg.profiles.filterMap (forwarded_stats audio.profiles) ++ tail := by
  refine ⟨match msg.audio with
      | none => audio
      | some am =>
        if am.has_server_time then
          { audio with last_server_time_offset := am.server_time - now,
                       echo_server_time := true }
        else audio, ?_, ?_, ?_, ?_⟩
  · cases msg.audio with
    | none => rfl
    | some am => simp only []; split <;> rfl
  · cases msg.audio with
    | none => rfl
    | some am => simp only []; split <;> rfl
  · cases msg.audio with
    | none => rfl
    | some am => simp only []; split <;> rfl
  · unfold audio_receive_rt_msg
    rw [hdec]
    simp only []
    generalize hA : (match msg.audio with
      | none => audio
      | some am =>
        if am.has_server_time = true then
          { audio with last_server_time_offset := am.server_time - now,
                       echo_server_time := true }
        else audio) = audio1
    have ho : audio1.out = audio.out := by
      subst hA
      cases msg.audio with
      | none => rfl
      | some am => simp only []; split <;> rfl
    have hp : audio1.profiles = audio.profiles := by
      subst hA
      cases msg.audio with
      | none => rfl
      | some am => simp only []; split <;> rfl
    obtain ⟨i1, i2, i3⟩ := rt_profiles_out env msg.profiles (audio1, false)
    simp only at i1 i2 i3
    refine ⟨trivial, ?_, ?_, ?_⟩
    · split
      · simpa [clock_view] using i3
      · exact i3
    · split
      · show (List.foldl (rt_profile_step env) (audio1, false) msg.profiles).1.profiles = _
        rw [i2, hp]
      · rw [i2, hp]
    · split
      · refine ⟨[Output.emit_participants], Or.inr rfl, ?_⟩
        show (List.foldl (rt_profile_step env) (audio1, false) msg.profiles).1.out ++ _ = _
        rw [i1, hp, ho]
      · refine ⟨[], Or.inl rfl, ?_⟩
        rw [i1, hp, ho, List.append_nil]

theorem do_send_rt_packet_echo (now real : Int) (a : ChimeCallAudio)
    (h0 : a.last_server_time_offset ≠ 0) (he : a.echo_server_time = true) :
    (do_send_rt_packet now real a).audio_msg.has_server_time = true ∧
    (do_send_rt_packet now real a).audio_msg.server_time = a.last_server_time_offset + now ∧
    (do_send_rt_packet now real a).audio_msg.has_echo_time = true ∧
    (do_send_rt_packet now real a).audio_msg.echo_time = a.last_server_time_offset + now ∧
    (do_send_rt_packet now real a).echo_server_time = false := by
  simp [do_send_rt_packet, chime_call_transport_send_packet, h0, he]

/-- For every server time T and local monotonic time N with T different from
N, receiving a RealTime message that carries server_time = T at time N sets
the clock offset to T - N and sets the echo flag; the next RealTime send, at
monotonic time N', stamps server_time = (T - N) + N', stamps echo_time with
the same value and clears the echo flag. -/
theorem clock_offset_echo (env : Env) (now : Int) (audio : ChimeCallAudio) (pkt : List Nat)
    (msg : RTMessage) (am : AudioMessage) (hdec : env.rtmessage__unpack pkt = some msg)
    (haudio : msg.audio = some am) (hst : am.has_server_time = true)
    (hne : am.server_time ≠ now) :
    (audio_receive_rt_msg env now audio pkt).2.last_server_time_offset = am.server_time - now ∧
    (audio_receive_rt_msg env now audio pkt).2.echo_server_time = true ∧
    ∀ now' real : Int,
      (do_send_rt_packet now' real (audio_receive_rt_msg env now audio pkt).2).out =
        (audio_receive_rt_msg env now audio pkt).2.out ++ [Output.sent_rt
          (do_send_rt_packet now' real (audio_receive_rt_msg env now audio pkt).2).audio_msg] ∧
      (do_send_rt_packet now' real
        (audio_receive_rt_msg env now audio pkt).2).audio_msg.has_server_time = true ∧
      (do_send_rt_packet now' real
        (audio_receive_rt_msg env now audio pkt).2).audio_msg.server_time =
          (am.server_time - now) + now' ∧
      (do_send_rt_packet now' real
        (audio_receive_rt_msg env now audio pkt).2).audio_msg.has_echo_time = true ∧
      (do_send_rt_packet now' real
        (audio_receive_rt_msg env now audio pkt).2).audio_msg.echo_time =
          (am.server_time - now) + now' ∧
      (do_send_rt_packet now' real
        (audio_receive_rt_msg env now audio pkt).2).echo_server_time = false := by
  obtain ⟨audio1, -, -, hc, -, hv, -, -⟩ := audio_receive_rt_msg_decoded env now audio pkt msg hdec
  rw [haudio] at hc
  simp only [hst, ↓reduceIte] at hc
  rw [hc] at hv
  simp only [clock_view, Prod.mk.injEq] at hv
  obtain ⟨h1, h2, -⟩ := hv
  have h0 : (audio_receive_rt_msg env now audio pkt).2.last_server_time_offset ≠ 0 := by
    rw [h1]; omega
  refine ⟨h1, h2, ?_⟩
  intro now' real
  obtain ⟨e1, e2, e3, e4, e5⟩ := do_send_rt_packet_echo now' real _ h0 h2
  rw [h1] at e2 e4
  exact ⟨(do_send_rt_packet_fields now' real _).1, e1, e2, e3, e4, e5⟩

/-- Server time 100 received at local time 40, and a send at local time
50. -/
theorem clock_offset_echo_witness :
    (audio_receive_rt_msg sample_env_rt 40 sample_session [100]).2.last_server_time_offset = 60 ∧
      (do_send_rt_packet 50 0
        (audio_receive_rt_msg sample_env_rt 40 sample_session [100]).2).audio_msg.echo_time =
          110 :=
  have h := clock_offset_echo sample_env_rt 40 sample_session [100]
    { audio := some { audio_message__init with has_server_time := true, server_time := 100 },
      profiles := [] }
    { audio_message__init with has_server_time := true, server_time := 100 }
    rfl rfl rfl (by decide)
  ⟨h.1, (h.2.2 50 0).2.2.2.2.1⟩

/-- C15, at the failing input T = N.  On a fresh session, server time 5
received at local time 5 leaves the offset at zero with the echo flag set, and
the send at local time 9 stamps neither server_time nor echo_time and leaves
the echo flag set.  On a session that has echoed before (server time 100
received at 40, sent at 50 with both stamps 110), server time 70 received at
local time 70 sets the offset to zero again; the send at local time 80 should
stamp 80 twice, but the packet carries the stale server_time 110 and no
echo_time, and the echo flag is still set afterwards. -/
theorem clock_offset_zero_not_echoed :
    (audio_receive_rt_msg sample_env_rt 5 sample_session [5]).2.last_server_time_offset = 0 ∧
    (audio_receive_rt_msg sample_env_rt 5 sample_session [5]).2.echo_server_time = true ∧
    (do_send_rt_packet 9 0
      (audio_receive_rt_msg sample_env_rt 5 sample_session [5]).2).audio_msg.has_server_time
        = false ∧
    (do_send_rt_packet 9 0
      (audio_receive_rt_msg sample_env_rt 5 sample_session [5]).2).audio_msg.has_echo_time
        = false ∧
    (do_send_rt_packet 9 0
      (audio_receive_rt_msg sample_env_rt 5 sample_session [5]).2).echo_server_time = true ∧
    (audio_receive_rt_msg sample_env_rt 70 sample_echoed [70]).2.last_server_time_offset = 0 ∧
    (audio_receive_rt_msg sample_env_rt 70 sample_echoed [70]).2.echo_server_time = true ∧
    ((do_send_rt_packet 80 0
      (audio_receive_rt_msg sample_env_rt 70 sample_echoed [70]).2).out.getLast?.map
        fun o => match o with
          | Output.sent_rt m => (m.has_server_time, m.server_time, m.has_echo_time)
          | _ => (false, 0, false)) = some (true, 110, false) ∧
    (do_send_rt_packet 80 0
      (audio_receive_rt_msg sample_env_rt 70 sample_echoed [70]).2).echo_server_time = true := by
  decide

/-- C16, at the failing input.  Server time 100 is received at local time 40;
the send at local time 50 stamps echo_time = 110; the following send, at local
time 70 and with no server time received in between, stamps server_time = 130
and still carries has_echo_time with the stale echo_time = 110. -/
theorem echo_time_repeated :
    (do_send_rt_packet 50 0
      (audio_receive_rt_msg sample_env_rt 40 sample_session [100]).2).audio_msg.echo_time = 110 ∧
    (do_send_rt_packet 70 0 (do_send_rt_packet 50 0
      (audio_receive_rt_msg sample_env_rt 40 sample_session [100]).2)).audio_msg.has_echo_time
        = true ∧
    (do_send_rt_packet 70 0 (do_send_rt_packet 50 0
      (audio_receive_rt_msg sample_env_rt 40 sample_session [100]).2)).audio_msg.echo_time
        = 110 ∧
    (do_send_rt_packet 70 0 (do_send_rt_packet 50 0
      (audio_receive_rt_msg sample_env_rt 40 sample_session [100]).2)).audio_msg.server_time
        = 130 ∧
    (do_send_rt_packet 70 0 (do_send_rt_packet 50 0
      (audio_receive_rt_msg sample_env_rt 40 sample_session [100]).2)).out.getLast? =
      some (Output.sent_rt (do_send_rt_packet 70 0 (do_send_rt_packet 50 0
        (audio_receive_rt_msg sample_env_rt 40 sample_session [100]).2)).audio_msg) := by
  decide

/-- C17, at the failing input.  With both timers scheduled, reopening with the
current mute value changes nothing; reopening with the other value destroys
both sources and enters Connecting, but the two handles stay recorded (1 and
2).  The next successful Auth message therefore registers no RealTime timer,
and the next Data message schedules no deferred flush: no source is live and
no new one is handed out. -/
theorem reopen_leaves_stale_handles :
    (sample_armed.send_rt_source = 1 ∧ sample_armed.data_ack_source = 2 ∧
      sample_armed.live_sources = [1, 2]) ∧
    chime_call_audio_reopen sample_armed false = sample_armed ∧
    (sample_reopened.state = ChimeAudioState.AUDIO_STATE_CONNECTING ∧
      sample_reopened.muted = true ∧ sample_reopened.live_sources = [] ∧
      sample_reopened.send_rt_source = 1 ∧ sample_reopened.data_ack_source = 2) ∧
    ((audio_receive_auth_msg sample_env 0 0 sample_reopened [1]).2.send_rt_source = 1 ∧
      (audio_receive_auth_msg sample_env 0 0 sample_reopened [1]).2.live_sources = [] ∧
      (audio_receive_auth_msg sample_env 0 0 sample_reopened [1]).2.source_ids = 2) ∧
    (audio_receive_data_msg sample_env sample_reopened [2, 5, 8, 1, 1]).map
      (fun x => (x.2.data_ack_source, x.2.live_sources, x.2.source_ids)) = some (2, [], 2) := by
  decide

/-! ## Queued messages -/

theorem compare_ms_pos (a b : msg_sort) : compare_ms a b > 0 ↔ ¬ ms_le a b := by
  unfold compare_ms ms_le
  by_cases h1 : a.tm.tv_sec > b.tm.tv_sec
  · rw [if_pos h1]
    constructor
    · intro _; omega
    · intro _; decide
  · rw [if_neg h1]
    by_cases h2 : a.tm.tv_sec = b.tm.tv_sec ∧ a.tm.tv_usec > b.tm.tv_usec
    · rw [if_pos h2]
      constructor
      · intro _; omega
      · intro _; decide
    · rw [if_neg h2]
      constructor
      · intro h; exact absurd h (by decide)
      · intro h; exfalso; apply h; omega

theorem ms_le_total (a b : msg_sort) (h : ¬ ms_le a b) : ms_le b a := by
  unfold ms_le at h ⊢
  omega

theorem ms_le_trans (a b c : msg_sort) (h1 : ms_le a b) (h2 : ms_le b c) : ms_le a c := by
  unfold ms_le at h1 h2 ⊢
  omega

theorem g_list_insert_sorted_perm (l : List msg_sort) (x : msg_sort) :
    (g_list_insert_sorted compare_ms l x).Perm (x :: l) := by
  induction l with
  | nil => exact List.Perm.refl _
  | cons y rest ih =>
    simp only [g_list_insert_sorted]
    split
    · exact (List.Perm.cons y ih).trans (List.Perm.swap x y rest)
    · exact List.Perm.refl _

theorem g_list_insert_sorted_sorted (l : List msg_sort) (x : msg_sort)
    (hl : l.Pairwise ms_le) : (g_list_insert_sorted compare_ms l x).Pairwise ms_le := by
  induction l with
  | nil => simp [g_list_insert_sorted]
  | cons y rest ih =>
    rw [List.pairwise_cons] at hl
    obtain ⟨hy, hrest⟩ := hl
    simp only [g_list_insert_sorted]
    by_cases hc : compare_ms x y > 0
    · rw [if_pos hc, List.pairwise_cons]
      refine ⟨?_, ih hrest⟩
      intro z hz
      rcases List.mem_cons.mp ((g_list_insert_sorted_perm rest x).mem_iff.mp hz) with h | h
      · subst h
        exact ms_le_total _ _ ((compare_ms_pos _ _).mp hc)
      · exact hy z h
    · rw [if_neg hc, List.pairwise_cons, List.pairwise_cons]
      have hxy : ms_le x y := by
        by_contra hn
        exact hc ((compare_ms_pos _ _).mpr hn)
      refine ⟨?_, hy, hrest⟩
      intro z hz
      rcases List.mem_cons.mp hz with h | h
      · subst h; exact hxy
      · exact ms_le_trans _ _ _ hxy (hy z h)

/-- The list that `insert_queued_msg` builds from nodes with parseable
timestamps, on top of a sorted list. -/
theorem insert_queued_msgs_sorted (iso8601 : String → Option GTimeVal) (nodes : List JsonNode)
    (hparse : ∀ n ∈ nodes, ∃ s tm, n.created_on = some s ∧ iso8601 s = some tm) :
    ∀ l0 : List msg_sort, l0.Pairwise ms_le →
      (nodes.foldl (insert_queued_msg iso8601) l0).Pairwise ms_le ∧
      ((nodes.foldl (insert_queued_msg iso8601) l0).map fun ms => ms.node).Perm
        (nodes ++ l0.map fun ms => ms.node) := by
  induction nodes with
  | nil => intro l0 h0; exact ⟨h0, List.Perm.refl _⟩
  | cons n rest ih =>
    intro l0 h0
    obtain ⟨s, tm, hs, htm⟩ := hparse n (List.mem_cons_self _ _)
    have e : insert_queued_msg iso8601 l0 n =
        g_list_insert_sorted compare_ms l0 { tm := tm, node := n } := by
      simp [insert_queued_msg, hs, htm]
    obtain ⟨i1, i2⟩ := ih (fun x hx => hparse x (List.mem_cons_of_mem _ hx))
      (insert_queued_msg iso8601 l0 n) (by rw [e]; exact g_list_insert_sorted_sorted _ _ h0)
    rw [List.foldl_cons]
    refine ⟨i1, i2.trans ?_⟩
    rw [e]
    have hp := (g_list_insert_sorted_perm l0 { tm := tm, node := n }).map fun ms => ms.node
    simp only [List.map_cons] at hp
    exact (List.Perm.append_left rest hp).trans (by
      simp only [List.cons_append]
      exact List.perm_middle)

theorem deliver_queued_calls (l : List msg_sort) :
    (deliver_queued l).1 = l.map fun ms => (ms.node, ms.tm.tv_sec) := by
  induction l with
  | nil => rfl
  | cons ms rest ih => simp [deliver_queued, ih]

/-- C21. `chime_complete_messages` delivers the queued messages in
non-decreasing order of their CreatedOn time (seconds, then microseconds): for
every set of queued messages with parseable timestamps, visited in any order,
the list built by `insert_queued_msg` with `g_list_insert_sorted` and
`compare_ms` is sorted ascending by (`tv_sec`, `tv_usec`), the callback is
called on its elements in that order, and each message is delivered exactly
once (the delivered nodes are a permutation of the queued ones). -/
theorem queued_messages_delivered_in_order (iso8601 : String → Option GTimeVal)
    (nodes : List JsonNode)
    (hparse : ∀ n ∈ nodes, ∃ s tm, n.created_on = some s ∧ iso8601 s = some tm) :
    (nodes.foldl (insert_queued_msg iso8601) []).Pairwise ms_le ∧
    (chime_complete_messages iso8601 nodes).1 =
      (nodes.foldl (insert_queued_msg iso8601) []).map (fun ms => (ms.node, ms.tm.tv_sec)) ∧
    ((chime_complete_messages iso8601 nodes).1.map Prod.fst).Perm nodes ∧
    (chime_complete_messages iso8601 nodes).1.Pairwise (fun x y => x.2 ≤ y.2) := by
  obtain ⟨h1, h2⟩ := insert_queued_msgs_sorted iso8601 nodes hparse [] List.Pairwise.nil
  have hc := deliver_queued_calls (nodes.foldl (insert_queued_msg iso8601) [])
  refine ⟨h1, hc, ?_, ?_⟩
  · unfold chime_complete_messages
    rw [hc, List.map_map]
    simpa using h2
  · unfold chime_complete_messages
    rw [hc, List.pairwise_map]
    refine List.Pairwise.imp ?_ h1
    intro a b hab
    unfold ms_le at hab
    show a.tm.tv_sec ≤ b.tm.tv_sec
    omega

/-- C21, on three queued messages visited out of order, two of them within the
same second. -/
theorem queued_messages_delivered_in_order_witness :
    (chime_complete_messages sample_iso8601
        [{ id := 1, created_on := some "t5.2" }, { id := 2, created_on := some "t3.9" },
         { id := 3, created_on := some "t5.1" }]).1.map (fun x => x.1.id) = [2, 3, 1] ∧
      ([{ id := 1, created_on := some "t5.2" }, { id := 2, created_on := some "t3.9" },
        { id := 3, created_on := some "t5.1" }].foldl
          (insert_queued_msg sample_iso8601) []).Pairwise ms_le :=
  ⟨by decide, (queued_messages_delivered_in_order sample_iso8601
    [{ id := 1, created_on := some "t5.2" }, { id := 2, created_on := some "t3.9" },
     { id := 3, created_on := some "t5.1" }]
    (by
      intro n hn
      simp only [List.mem_cons, List.mem_singleton, List.not_mem_nil, or_false] at hn
      rcases hn with h | h | h <;> subst h
      · exact ⟨"t5.2", _, rfl, rfl⟩
      · exact ⟨"t3.9", _, rfl, rfl⟩
      · exact ⟨"t5.1", _, rfl, rfl⟩)).1⟩


/-! ## Termination of the cascading merge -/

/-- C22 (refuted by the code). On the merged fragment list [0,2], [4,6], [8,10]
the call `insert_frag(m, 2, 4)` does not return: the new range touches [0,2],
whose end becomes 4, the cascading merge absorbs [4,6], and because `nf` still
names the absorbed fragment while a successor [8,10] remains, the loop
condition holds at every later test, whatever bound is put on the number of
tests.  The same happens for the range 2..9, which overlaps two successors. -/
theorem insert_frag_cascade_never_returns :
    frags_merged [⟨0, 2⟩, ⟨4, 6⟩, ⟨8, 10⟩] ∧
    (∀ n, absorb_loop ⟨4, 6⟩ [⟨8, 10⟩] n (4, [⟨4, 6⟩, ⟨8, 10⟩]) = none) ∧
    (∀ n, absorb_loop ⟨4, 6⟩ [⟨8, 10⟩] n (9, [⟨4, 6⟩, ⟨8, 10⟩]) = none) ∧
    insert_frag { msg_id := 1, len := 10, buf := List.replicate 10 0,
                  frags := [⟨0, 2⟩, ⟨4, 6⟩, ⟨8, 10⟩] } 2 4 = none ∧
    insert_frag { msg_id := 1, len := 10, buf := List.replicate 10 0,
                  frags := [⟨0, 2⟩, ⟨4, 6⟩, ⟨8, 10⟩] } 2 9 = none := by
  have hfix : ∀ k, absorb_loop ⟨4, 6⟩ [⟨8, 10⟩] k (6, [⟨8, 10⟩]) = none := by
    intro k
    cases k with
    | zero => rfl
    | succ j =>
      have := absorb_loop_fixed ⟨4, 6⟩ [⟨8, 10⟩] j
      rw [this]
      decide
  refine ⟨?_, ?_, ?_, by decide, by decide⟩
  · unfold frags_merged
    decide
  · intro n
    cases n with
    | zero => rfl
    | succ k =>
      rw [absorb_loop, if_pos (by decide)]
      exact hfix k
  · intro n
    cases n with
    | zero => rfl
    | succ k =>
      rw [absorb_loop, if_pos (by decide)]
      exact hfix k

/-! ## The replay cutoff -/

/-- As long as the id of the message plus one fits the 32-bit cutoff, the
cutoff does not decrease across `audio_receive_data_msg`, and when it changes
it becomes the id of the message plus one, above its previous value. -/
theorem replay_cutoff_monotone (env : Env) (a : ChimeCallAudio) (pkt : List Nat)
    (r : Bool) (a' : ChimeCallAudio) (hr : Reachable env a)
    (hfit : ∀ msg, env.data_message__unpack pkt = some msg → msg.msg_id + 1 < 2 ^ 31)
    (h : audio_receive_data_msg env a pkt = some (r, a')) :
    a.data_next_logical_msg ≤ a'.data_next_logical_msg ∧
    (a'.data_next_logical_msg ≠ a.data_next_logical_msg →
      ∃ msg, env.data_message__unpack pkt = some msg ∧
        a'.data_next_logical_msg = msg.msg_id + 1 ∧
        a.data_next_logical_msg < a'.data_next_logical_msg) := by
  have hok := reachable_table_ok env a hr
  unfold audio_receive_data_msg at h
  cases hdec : env.data_message__unpack pkt with
  | none =>
    simp only [hdec, Option.some.injEq, Prod.mk.injEq] at h
    obtain ⟨-, h2⟩ := h
    subst h2
    exact ⟨Int.le_refl _, fun hne => absurd rfl hne⟩
  | some msg =>
    have hb := hfit msg hdec
    simp only [hdec] at h
    unfold audio_receive_data_msg_decoded at h
    by_cases cf : (!msg.has_seq || !msg.has_msg_id || !msg.has_msg_len) = true
    · rw [if_pos cf] at h
      simp only [Option.some.injEq, Prod.mk.injEq] at h
      obtain ⟨-, h2⟩ := h
      subst h2
      exact ⟨Int.le_refl _, fun hne => absurd rfl hne⟩
    · rw [if_neg cf] at h
      have hv := data_msg_acks_data_view a msg
      have hok1 := table_ok_of_data_view a _ hv hok
      simp only [data_view, Prod.mk.injEq] at hv
      obtain ⟨hv1, hv2⟩ := hv
      have hg : gint32 (gint32 (msg.msg_id : Int) + 1) = (msg.msg_id : Int) + 1 := by
        unfold gint32
        omega
      obtain ⟨-, s2⟩ :=
        data_msg_reassemble_spec env _ msg r a' hok1 (env.msg_id_32 _ _ hdec) h
      rw [hv2, hg] at s2
      exact ⟨by omega, fun hne => ⟨msg, rfl, by omega, by omega⟩⟩

/-- C23, at the failing input.  On the freshly opened sample session (cutoff 0)
a Data message that completes the Stream frame of message 2147483647 is
answered TRUE and leaves the cutoff at -2147483648, the 32-bit wrap-around of
2147483647 + 1: the cutoff has decreased, it is not the completed id + 1, and
the completed entry itself stays in the table. -/
theorem replay_cutoff_wraps :
    Reachable sample_env sample_session ∧
    sample_session.data_next_logical_msg = 0 ∧
    (audio_receive_data_msg sample_env sample_session
        [1, 2147483647, 5, 0, 0, 5, 0, 5, 7]).map
      (fun x => (x.1, x.2.data_next_logical_msg, x.2.data_messages.map fun m => m.msg_id)) =
      some (true, -2147483648, [2147483647]) :=
  ⟨Reachable.opened 0 0 false, by decide, by decide⟩

end Chime
